import Mathlib

/-!
A shallow embedding of the JSON parser from `src/main.rs`: a lexical
scanner (`tokenize`) producing a flat token sequence, and a
recursive-descent parser (`Parser::parse_json` and friends) consuming it.

Modelling conventions:
* Rust `char` is Lean `Char` (both are Unicode scalar values); character
  indices (from `chars().enumerate()`) are `ℕ`.
* Rust `char::is_alphabetic` (Unicode) is modelled by its ASCII-letter
  restriction `isAlphaChar`; every concrete input considered here is ASCII.
* The parser's mutable `position` field becomes explicit state passing:
  each parsing function takes the position and returns the final position
  (also on error, mirroring where the Rust parser's cursor stops).  The
  returned position carries the intrinsic invariant that the cursor only
  moves forward and stays within the token sequence.
* `str::parse::<f64>` is modelled by `parseFloat?`, which implements the
  accepting grammar of Rust's float parsing exactly, with exact rational
  (`ℚ`) semantics in place of IEEE rounding.  The `inf`/`infinity`/`nan`
  productions of `f64::from_str` are omitted: a `Number` token's raw text
  consists only of characters from `{digit, '.', 'e', 'E', '+', '-'}`, so
  those productions are unreachable from the scanner's output.
-/

namespace JsonRs

/-- Rust `enum JsonValue`.  The Rust `Object` holds a `HashMap`; it is
modelled as a key-unique association list built by `mapInsert`, which has
the same lookup semantics as `HashMap::insert` (a repeated key overwrites
the earlier binding). `Number` holds an exact rational in place of `f64`. -/
inductive JsonValue where
  | Null : JsonValue
  | Bool (b : Bool) : JsonValue
  | Number (q : ℚ) : JsonValue
  | String (s : String) : JsonValue
  | Array (items : List JsonValue) : JsonValue
  | Object (entries : List (String × JsonValue)) : JsonValue
deriving Repr

/-- Rust `enum Token`. -/
inductive Token where
  | LBrace : Token
  | RBrace : Token
  | LBracket : Token
  | RBracket : Token
  | Colon : Token
  | Comma : Token
  | String (s : String) : Token
  | Number (raw : String) : Token
  | True : Token
  | False : Token
  | Null : Token
deriving DecidableEq, Repr

/-- Rust `enum LexError`. -/
inductive LexError where
  | InvalidToken (c : Char) (pos : ℕ) : LexError
  | UnterminatedString (pos : ℕ) : LexError
deriving DecidableEq, Repr

/-- Rust `enum ParseError`. -/
inductive ParseError where
  | UnexpectedEndOfTokens : ParseError
  | UnexpectedToken (t : Token) : ParseError
  | InvalidNumber (raw : String) : ParseError
deriving DecidableEq, Repr

/-- The `Box<dyn Error>` returned by `parse_json_str`: either stage's
error, tagged by stage. -/
inductive JsonError where
  | lexErr (e : LexError) : JsonError
  | parseErr (e : ParseError) : JsonError
deriving DecidableEq, Repr

/-- The whitespace characters skipped by the scanner
(`' ' | '\n' | '\t' | '\r'` in the Rust `match`). -/
def isWsChar (c : Char) : Bool :=
  c = ' ' || c = '\n' || c = '\t' || c = '\r'

/-- Rust `char::is_ascii_digit`. -/
def isAsciiDigit (c : Char) : Bool :=
  48 ≤ c.toNat && c.toNat ≤ 57

/-- ASCII restriction of Rust `char::is_alphabetic`. -/
def isAlphaChar (c : Char) : Bool :=
  (65 ≤ c.toNat && c.toNat ≤ 90) || (97 ≤ c.toNat && c.toNat ≤ 122)

/-- The character set over which a number run is accumulated greedily:
digits, `'.'`, `'e'`, `'E'`, `'+'`, `'-'` (the `peek` test in the scanner's
number branch). -/
def isNumChar (c : Char) : Bool :=
  isAsciiDigit c || c = '.' || c = 'e' || c = 'E' || c = '+' || c = '-'

/-- First character of the scanner's number branch: `is_ascii_digit || '-'`. -/
def isDigitOrMinus (c : Char) : Bool :=
  isAsciiDigit c || c = '-'

/-- The six single-character structural tokens. -/
def structTok? (c : Char) : Option Token :=
  if c = '{' then some .LBrace
  else if c = '}' then some .RBrace
  else if c = '[' then some .LBracket
  else if c = ']' then some .RBracket
  else if c = ':' then some .Colon
  else if c = ',' then some .Comma
  else none

/-- The scanner's minimal escape decoding: `\"`, `\\`, `\n`, `\t`, `\r`
are decoded, any other escaped character is emitted literally. -/
def decodeEscape (e : Char) : Char :=
  if e = '"' then '"'
  else if e = '\\' then '\\'
  else if e = 'n' then '\n'
  else if e = 't' then '\t'
  else if e = 'r' then '\r'
  else e

/-- The string-scanning loop of `tokenize` (the `'"' =>` arm): given the
characters after the opening quote, returns the decoded string content
together with the number of characters consumed (closing quote included),
or the `UnterminatedString` error carrying the opening quote's index. -/
def scanString (openIdx : ℕ) : List Char → Except LexError (List Char × ℕ)
  | [] => .error (.UnterminatedString openIdx)
  | c :: cs =>
    if c = '"' then .ok ([], 1)
    else if c = '\\' then
      match cs with
      | [] => .error (.UnterminatedString openIdx)
      | e :: cs' =>
        match scanString openIdx cs' with
        | .ok (content, n) => .ok (decodeEscape e :: content, n + 2)
        | .error err => .error err
    else
      match scanString openIdx cs with
      | .ok (content, n) => .ok (c :: content, n + 1)
      | .error err => .error err

/-- Rust `tokenize`, on the character list with the index of the current
character as first argument. -/
def tokenizeAux : ℕ → List Char → Except LexError (List Token)
  | _, [] => .ok []
  | i, c :: cs =>
    if isWsChar c then
      tokenizeAux (i + 1) cs
    else
      match structTok? c with
      | some t => (tokenizeAux (i + 1) cs).map (fun ts => t :: ts)
      | none =>
        if c = '"' then
          match scanString i cs with
          | .error e => .error e
          | .ok (content, n) =>
            (tokenizeAux (i + 1 + n) (cs.drop n)).map
              (fun ts => Token.String (String.mk content) :: ts)
        else if isAlphaChar c then
          let run := cs.takeWhile isAlphaChar
          let ident := String.mk (c :: run)
          if ident = "true" then
            (tokenizeAux (i + 1 + run.length) (cs.drop run.length)).map
              (fun ts => Token.True :: ts)
          else if ident = "false" then
            (tokenizeAux (i + 1 + run.length) (cs.drop run.length)).map
              (fun ts => Token.False :: ts)
          else if ident = "null" then
            (tokenizeAux (i + 1 + run.length) (cs.drop run.length)).map
              (fun ts => Token.Null :: ts)
          else .error (.InvalidToken c i)
        else if isDigitOrMinus c then
          let run := cs.takeWhile isNumChar
          (tokenizeAux (i + 1 + run.length) (cs.drop run.length)).map
            (fun ts => Token.Number (String.mk (c :: run)) :: ts)
        else .error (.InvalidToken c i)
termination_by _ cs => cs.length
decreasing_by
  all_goals simp_wf
  all_goals omega

/-- Rust `tokenize(input: &str)`. -/
def tokenize (input : String) : Except LexError (List Token) :=
  tokenizeAux 0 input.toList

/-- Numeric value of a digit run (most significant first). -/
def digitsVal (ds : List Char) : ℕ :=
  ds.foldl (fun a c => 10 * a + (c.toNat - 48)) 0

/-- Model of Rust `str::parse::<f64>` (`f64::from_str`) restricted to its
finite-number grammar:
`[+-]? (digits ['.' digits?] | '.' digits) ([eE] [+-]? digits)?`,
whole input consumed.  The value is computed exactly in `ℚ` instead of
rounding to the nearest `f64`; the claims checked here only involve
numbers on which the two agree, or no value at all.  The `inf`/`nan`
productions are unreachable from scanner output and omitted. -/
def parseFloat? (s : String) : Option ℚ :=
  let cs := s.toList
  let sgnRest : ℚ × List Char :=
    match cs with
    | '-' :: r => (-1, r)
    | '+' :: r => (1, r)
    | r => (1, r)
  let sgn := sgnRest.1
  let cs1 := sgnRest.2
  let ip := cs1.takeWhile isAsciiDigit
  let cs2 := cs1.dropWhile isAsciiDigit
  let fpRest : List Char × List Char :=
    match cs2 with
    | '.' :: r => (r.takeWhile isAsciiDigit, r.dropWhile isAsciiDigit)
    | r => ([], r)
  let fp := fpRest.1
  let cs3 := fpRest.2
  if ip = [] ∧ fp = [] then none
  else
    let base : ℚ := sgn * (digitsVal (ip ++ fp) : ℚ) / 10 ^ fp.length
    match cs3 with
    | [] => some base
    | e :: r =>
      if e = 'e' ∨ e = 'E' then
        let expRest : Bool × List Char :=
          match r with
          | '-' :: rr => (false, rr)
          | '+' :: rr => (true, rr)
          | rr => (true, rr)
        let epos := expRest.1
        let ed := expRest.2.takeWhile isAsciiDigit
        let r2 := expRest.2.dropWhile isAsciiDigit
        if ed = [] ∨ r2 ≠ [] then none
        else if epos then some (base * 10 ^ digitsVal ed)
        else some (base / 10 ^ digitsVal ed)
      else none

/-- Rust `HashMap::insert` on the association-list model of `Object`:
a repeated key overwrites the earlier binding, a new key is appended. -/
def mapInsert (k : String) (v : JsonValue) :
    List (String × JsonValue) → List (String × JsonValue)
  | [] => [(k, v)]
  | (k', v') :: rest =>
    if k' = k then (k, v) :: rest else (k', v') :: mapInsert k v rest

/-- Characterization used by the spec sentence "if input ends before a
closing `\"` is found": whether the characters after an opening quote
contain an unescaped closing quote (a backslash consumes the following
character). -/
def hasUnescapedClose : List Char → Bool
  | [] => false
  | c :: cs =>
    if c = '"' then true
    else if c = '\\' then
      match cs with
      | [] => false
      | _ :: cs' => hasUnescapedClose cs'
    else hasUnescapedClose cs

/-- `ScanTok lex t`: from the scanner's main dispatch, the characters
`lex` scan as exactly the single token `t` (for the greedy classes,
provided the following character does not extend the run — see
`FollowOk`). -/
inductive ScanTok : List Char → Token → Prop where
  | lbrace : ScanTok ['{'] .LBrace
  | rbrace : ScanTok ['}'] .RBrace
  | lbracket : ScanTok ['['] .LBracket
  | rbracket : ScanTok [']'] .RBracket
  | colon : ScanTok [':'] .Colon
  | comma : ScanTok [','] .Comma
  | tru : ScanTok ['t', 'r', 'u', 'e'] .True
  | fls : ScanTok ['f', 'a', 'l', 's', 'e'] .False
  | nul : ScanTok ['n', 'u', 'l', 'l'] .Null
  | num (c : Char) (body : List Char) (h : isDigitOrMinus c = true)
      (hb : ∀ x ∈ body, isNumChar x = true) :
      ScanTok (c :: body) (.Number (String.mk (c :: body)))
  | str (body content : List Char)
      (h : scanString 0 body = .ok (content, body.length)) :
      ScanTok ('"' :: body) (.String (String.mk content))

/-- The token boundary condition: the character following a greedy token
(keyword or number) must not extend its run. -/
def FollowOk : Token → List Char → Prop
  | .True, c :: _ => isAlphaChar c = false
  | .False, c :: _ => isAlphaChar c = false
  | .Null, c :: _ => isAlphaChar c = false
  | .Number _, c :: _ => isNumChar c = false
  | _, _ => True

/-- `WsIns cs cs'`: the two character sequences consist of the same
token lexemes, in the same order, with arbitrary whitespace between them
on either side — i.e. `cs'` is obtained from `cs` by inserting or
removing whitespace at token boundaries while preserving every token. -/
inductive WsIns : List Char → List Char → Prop where
  | nil : WsIns [] []
  | wsR (w : Char) (cs cs' : List Char) (hw : isWsChar w = true) :
      WsIns cs cs' → WsIns cs (w :: cs')
  | wsL (w : Char) (cs cs' : List Char) (hw : isWsChar w = true) :
      WsIns cs cs' → WsIns (w :: cs) cs'
  | tok (lex : List Char) (t : Token) (cs cs' : List Char) :
      ScanTok lex t → FollowOk t cs → FollowOk t cs' →
      WsIns cs cs' → WsIns (lex ++ cs) (lex ++ cs')

/-- The final cursor position returned by a parsing call at position
`pos`: the cursor only moves forward, and it stays within the token
sequence whenever it started there. -/
abbrev CursorFrom (tokens : List Token) (pos : ℕ) : Type :=
  {p : ℕ // pos ≤ p ∧ (pos ≤ tokens.length → p ≤ tokens.length)}

mutual

/-- Rust `Parser::parse_value`: dispatch on the current token.  The Rust
`current_token` (`self.tokens.get(self.position)`, an `Option`) is
rendered as an explicit bounds check followed by indexing.  The returned
position is the parser's `position` field after the call (both on
success and on error). -/
def parse_value (tokens : List Token) (pos : ℕ) :
    Except ParseError JsonValue × CursorFrom tokens pos :=
  if h : pos < tokens.length then
    match tokens.get ⟨pos, h⟩ with
    | .LBrace =>
      let r := parse_object tokens pos h
      (r.1, ⟨r.2.1, r.2.2.1, fun _ => r.2.2.2⟩)
    | .LBracket =>
      let r := parse_array tokens pos h
      (r.1, ⟨r.2.1, r.2.2.1, fun _ => r.2.2.2⟩)
    | .String s => (.ok (.String s), ⟨pos + 1, by omega, fun _ => h⟩)
    | .Number raw =>
      match parseFloat? raw with
      | some q => (.ok (.Number q), ⟨pos + 1, by omega, fun _ => h⟩)
      | none => (.error (.InvalidNumber raw), ⟨pos, le_refl _, id⟩)
    | .True => (.ok (.Bool true), ⟨pos + 1, by omega, fun _ => h⟩)
    | .False => (.ok (.Bool false), ⟨pos + 1, by omega, fun _ => h⟩)
    | .Null => (.ok .Null, ⟨pos + 1, by omega, fun _ => h⟩)
    | t => (.error (.UnexpectedToken t), ⟨pos, le_refl _, id⟩)
  else (.error .UnexpectedEndOfTokens, ⟨pos, le_refl _, id⟩)
termination_by 4 * (tokens.length - pos) + 2
decreasing_by
  all_goals simp_wf

/-- Rust `Parser::parse_object`: consume the `{` at `pos` (the caller
checked it is there, whence the `pos < tokens.length` argument); an
immediately following `}` yields the empty object, otherwise the
key-value loop runs. -/
def parse_object (tokens : List Token) (pos : ℕ) (hlt : pos < tokens.length) :
    Except ParseError JsonValue × {p : ℕ // pos ≤ p ∧ p ≤ tokens.length} :=
  if h : tokens[pos + 1]? = some .RBrace then
    (.ok (.Object []), ⟨pos + 2, by omega,
      by by_contra hn; rw [List.getElem?_eq_none (by omega)] at h
         exact Option.noConfusion h⟩)
  else
    let r := object_loop tokens (pos + 1) []
    (r.1, ⟨r.2.1, le_trans (by omega) r.2.2.1, r.2.2.2 hlt⟩)
termination_by 4 * (tokens.length - pos) + 1
decreasing_by
  all_goals simp_wf
  all_goals omega

/-- The key-value loop of `Parser::parse_object`: expect a string key, a
colon, a value, then a comma (continue) or `}` (finish). `acc` is the map
built so far. -/
def object_loop (tokens : List Token) (pos : ℕ)
    (acc : List (String × JsonValue)) :
    Except ParseError JsonValue × CursorFrom tokens pos :=
  if hk : pos < tokens.length then
    match tokens.get ⟨pos, hk⟩ with
    | .String key =>
      if hc : pos + 1 < tokens.length then
        match tokens.get ⟨pos + 1, hc⟩ with
        | .Colon =>
          match parse_value tokens (pos + 2) with
          | (.ok v, q) =>
            if hs : q.1 < tokens.length then
              match tokens.get ⟨q.1, hs⟩ with
              | .Comma =>
                let r := object_loop tokens (q.1 + 1) (mapInsert key v acc)
                (r.1, ⟨r.2.1, by have h1 := q.2.1; have h2 := r.2.2.1; omega,
                  fun _ => r.2.2.2 hs⟩)
              | .RBrace =>
                (.ok (.Object (mapInsert key v acc)),
                  ⟨q.1 + 1, by have := q.2.1; omega, fun _ => hs⟩)
              | t =>
                (.error (.UnexpectedToken t),
                  ⟨q.1, by have := q.2.1; omega, fun _ => q.2.2 (by omega)⟩)
            else
              (.error .UnexpectedEndOfTokens,
                ⟨q.1, by have := q.2.1; omega, fun _ => q.2.2 (by omega)⟩)
          | (.error e, q) =>
            (.error e, ⟨q.1, by have := q.2.1; omega, fun _ => q.2.2 (by omega)⟩)
        | t => (.error (.UnexpectedToken t), ⟨pos + 1, by omega, fun _ => hk⟩)
      else (.error .UnexpectedEndOfTokens, ⟨pos + 1, by omega, fun _ => hk⟩)
    | t => (.error (.UnexpectedToken t), ⟨pos, le_refl _, id⟩)
  else (.error .UnexpectedEndOfTokens, ⟨pos, le_refl _, id⟩)
termination_by 4 * (tokens.length - pos)
decreasing_by
  all_goals simp_wf
  all_goals try have _hq := q.2.1
  all_goals omega

/-- Rust `Parser::parse_array`: consume the `[` at `pos`; an immediately
following `]` yields the empty array, otherwise the element loop runs. -/
def parse_array (tokens : List Token) (pos : ℕ) (hlt : pos < tokens.length) :
    Except ParseError JsonValue × {p : ℕ // pos ≤ p ∧ p ≤ tokens.length} :=
  if h : tokens[pos + 1]? = some .RBracket then
    (.ok (.Array []), ⟨pos + 2, by omega,
      by by_contra hn; rw [List.getElem?_eq_none (by omega)] at h
         exact Option.noConfusion h⟩)
  else
    let r := array_loop tokens (pos + 1) []
    (r.1, ⟨r.2.1, le_trans (by omega) r.2.2.1, r.2.2.2 hlt⟩)
termination_by 4 * (tokens.length - pos) + 1
decreasing_by
  all_goals simp_wf
  all_goals omega

/-- The element loop of `Parser::parse_array`: parse a value, then a
comma (continue) or `]` (finish). `acc` holds the elements so far. -/
def array_loop (tokens : List Token) (pos : ℕ) (acc : List JsonValue) :
    Except ParseError JsonValue × CursorFrom tokens pos :=
  match parse_value tokens pos with
  | (.ok v, q) =>
    if hs : q.1 < tokens.length then
      match tokens.get ⟨q.1, hs⟩ with
      | .Comma =>
        let r := array_loop tokens (q.1 + 1) (acc ++ [v])
        (r.1, ⟨r.2.1, by have h1 := q.2.1; have h2 := r.2.2.1; omega,
          fun _ => r.2.2.2 hs⟩)
      | .RBracket =>
        (.ok (.Array (acc ++ [v])),
          ⟨q.1 + 1, by have := q.2.1; omega, fun _ => hs⟩)
      | t => (.error (.UnexpectedToken t), ⟨q.1, q.2.1, q.2.2⟩)
    else (.error .UnexpectedEndOfTokens, ⟨q.1, q.2.1, q.2.2⟩)
  | (.error e, q) => (.error e, ⟨q.1, q.2.1, q.2.2⟩)
termination_by 4 * (tokens.length - pos) + 3
decreasing_by
  all_goals simp_wf
  all_goals try have _hq := q.2.1
  all_goals omega

end

/-- Rust `Parser::parse_json`: parse one value starting at position 0;
if tokens remain afterwards, fail with `UnexpectedToken` on the first
leftover token. -/
def parse_json (tokens : List Token) : Except ParseError JsonValue :=
  match parse_value tokens 0 with
  | (.ok v, p) =>
    if h : p.1 < tokens.length then
      .error (.UnexpectedToken (tokens.get ⟨p.1, h⟩))
    else .ok v
  | (.error e, _) => .error e

/-!  Step equations for the parser: one clean equation per branch of each
parsing function, derived from the definitions.  They drive both the
evaluation of concrete runs and the general theorems below. -/

theorem lt_length_of_getElem?_some {α : Type} {l : List α} {n : ℕ} {a : α}
    (h : l[n]? = some a) : n < l.length := by
  by_contra hn
  rw [List.getElem?_eq_none (by omega)] at h
  exact Option.noConfusion h

theorem cursor_pair_ext {A : Type} {P : ℕ → Prop}
    {x y : A × {p : ℕ // P p}} (h1 : x.1 = y.1) (h2 : x.2.1 = y.2.1) :
    x = y := by
  obtain ⟨a, p, hp⟩ := x
  obtain ⟨b, q, hq⟩ := y
  dsimp at h1 h2
  subst h1
  subst h2
  rfl

theorem get_eq_of_getElem?_some {l : List Token} {n : ℕ} {a : Token}
    (hp : n < l.length) (h : l[n]? = some a) : l.get ⟨n, hp⟩ = a := by
  rw [List.get_eq_getElem]
  rw [List.getElem?_eq_getElem hp] at h
  exact Option.some_injective _ h

theorem parse_value_endOfTokens (tokens : List Token) (pos : ℕ)
    (h : tokens.length ≤ pos) :
    parse_value tokens pos = (.error .UnexpectedEndOfTokens, ⟨pos, le_refl _, id⟩) := by
  apply cursor_pair_ext <;> rw [parse_value.eq_def, dif_neg (by omega)]

theorem parse_value_lbrace (tokens : List Token) (pos : ℕ)
    (hp : pos < tokens.length) (h : tokens[pos]? = some .LBrace) :
    parse_value tokens pos =
      ((parse_object tokens pos hp).1,
        ⟨(parse_object tokens pos hp).2.1, (parse_object tokens pos hp).2.2.1,
          fun _ => (parse_object tokens pos hp).2.2.2⟩) := by
  apply cursor_pair_ext <;>
    rw [parse_value.eq_def, dif_pos hp, get_eq_of_getElem?_some hp h]

theorem parse_value_lbracket (tokens : List Token) (pos : ℕ)
    (hp : pos < tokens.length) (h : tokens[pos]? = some .LBracket) :
    parse_value tokens pos =
      ((parse_array tokens pos hp).1,
        ⟨(parse_array tokens pos hp).2.1, (parse_array tokens pos hp).2.2.1,
          fun _ => (parse_array tokens pos hp).2.2.2⟩) := by
  apply cursor_pair_ext <;>
    rw [parse_value.eq_def, dif_pos hp, get_eq_of_getElem?_some hp h]

theorem parse_value_string (tokens : List Token) (pos : ℕ) (s : String)
    (h : tokens[pos]? = some (.String s)) :
    parse_value tokens pos =
      (.ok (.String s),
        ⟨pos + 1, by omega, fun _ => lt_length_of_getElem?_some h⟩) := by
  have hp := lt_length_of_getElem?_some h
  apply cursor_pair_ext <;>
    rw [parse_value.eq_def, dif_pos hp, get_eq_of_getElem?_some hp h]

theorem parse_value_number_ok (tokens : List Token) (pos : ℕ) (raw : String)
    (q : ℚ) (h : tokens[pos]? = some (.Number raw))
    (hq : parseFloat? raw = some q) :
    parse_value tokens pos =
      (.ok (.Number q),
        ⟨pos + 1, by omega, fun _ => lt_length_of_getElem?_some h⟩) := by
  have hp := lt_length_of_getElem?_some h
  apply cursor_pair_ext <;>
    (rw [parse_value.eq_def, dif_pos hp, get_eq_of_getElem?_some hp h]
     simp only [hq])

theorem parse_value_number_bad (tokens : List Token) (pos : ℕ) (raw : String)
    (h : tokens[pos]? = some (.Number raw)) (hq : parseFloat? raw = none) :
    parse_value tokens pos =
      (.error (.InvalidNumber raw), ⟨pos, le_refl _, id⟩) := by
  have hp := lt_length_of_getElem?_some h
  apply cursor_pair_ext <;>
    (rw [parse_value.eq_def, dif_pos hp, get_eq_of_getElem?_some hp h]
     simp only [hq])

theorem parse_value_true (tokens : List Token) (pos : ℕ)
    (h : tokens[pos]? = some .True) :
    parse_value tokens pos =
      (.ok (.Bool true),
        ⟨pos + 1, by omega, fun _ => lt_length_of_getElem?_some h⟩) := by
  have hp := lt_length_of_getElem?_some h
  apply cursor_pair_ext <;>
    rw [parse_value.eq_def, dif_pos hp, get_eq_of_getElem?_some hp h]

theorem parse_value_false (tokens : List Token) (pos : ℕ)
    (h : tokens[pos]? = some .False) :
    parse_value tokens pos =
      (.ok (.Bool false),
        ⟨pos + 1, by omega, fun _ => lt_length_of_getElem?_some h⟩) := by
  have hp := lt_length_of_getElem?_some h
  apply cursor_pair_ext <;>
    rw [parse_value.eq_def, dif_pos hp, get_eq_of_getElem?_some hp h]

theorem parse_value_null (tokens : List Token) (pos : ℕ)
    (h : tokens[pos]? = some .Null) :
    parse_value tokens pos =
      (.ok .Null,
        ⟨pos + 1, by omega, fun _ => lt_length_of_getElem?_some h⟩) := by
  have hp := lt_length_of_getElem?_some h
  apply cursor_pair_ext <;>
    rw [parse_value.eq_def, dif_pos hp, get_eq_of_getElem?_some hp h]

theorem parse_value_unexpected (tokens : List Token) (pos : ℕ) (t : Token)
    (h : tokens[pos]? = some t)
    (ht : t = .RBrace ∨ t = .RBracket ∨ t = .Colon ∨ t = .Comma) :
    parse_value tokens pos = (.error (.UnexpectedToken t), ⟨pos, le_refl _, id⟩) := by
  have hp := lt_length_of_getElem?_some h
  rcases ht with rfl | rfl | rfl | rfl <;>
    (apply cursor_pair_ext <;>
      rw [parse_value.eq_def, dif_pos hp, get_eq_of_getElem?_some hp h])

theorem parse_object_empty (tokens : List Token) (pos : ℕ)
    (hp : pos < tokens.length) (h : tokens[pos + 1]? = some .RBrace) :
    parse_object tokens pos hp =
      (.ok (.Object []),
        ⟨pos + 2, by omega, lt_length_of_getElem?_some h⟩) := by
  apply cursor_pair_ext <;> rw [parse_object.eq_def, dif_pos h]

theorem parse_object_nonempty (tokens : List Token) (pos : ℕ)
    (hp : pos < tokens.length) (h : ¬tokens[pos + 1]? = some .RBrace) :
    parse_object tokens pos hp =
      ((object_loop tokens (pos + 1) []).1,
        ⟨(object_loop tokens (pos + 1) []).2.1,
          le_trans (by omega) (object_loop tokens (pos + 1) []).2.2.1,
          (object_loop tokens (pos + 1) []).2.2.2 hp⟩) := by
  apply cursor_pair_ext <;> rw [parse_object.eq_def, dif_neg h]

theorem parse_array_empty (tokens : List Token) (pos : ℕ)
    (hp : pos < tokens.length) (h : tokens[pos + 1]? = some .RBracket) :
    parse_array tokens pos hp =
      (.ok (.Array []),
        ⟨pos + 2, by omega, lt_length_of_getElem?_some h⟩) := by
  apply cursor_pair_ext <;> rw [parse_array.eq_def, dif_pos h]

theorem parse_array_nonempty (tokens : List Token) (pos : ℕ)
    (hp : pos < tokens.length) (h : ¬tokens[pos + 1]? = some .RBracket) :
    parse_array tokens pos hp =
      ((array_loop tokens (pos + 1) []).1,
        ⟨(array_loop tokens (pos + 1) []).2.1,
          le_trans (by omega) (array_loop tokens (pos + 1) []).2.2.1,
          (array_loop tokens (pos + 1) []).2.2.2 hp⟩) := by
  apply cursor_pair_ext <;> rw [parse_array.eq_def, dif_neg h]

theorem object_loop_endOfTokens (tokens : List Token) (pos : ℕ)
    (acc : List (String × JsonValue)) (h : tokens.length ≤ pos) :
    object_loop tokens pos acc =
      (.error .UnexpectedEndOfTokens, ⟨pos, le_refl _, id⟩) := by
  apply cursor_pair_ext <;> rw [object_loop.eq_def, dif_neg (by omega)]

theorem object_loop_badkey (tokens : List Token) (pos : ℕ)
    (acc : List (String × JsonValue)) (t : Token)
    (h : tokens[pos]? = some t) (ht : ∀ s, t ≠ .String s) :
    object_loop tokens pos acc =
      (.error (.UnexpectedToken t), ⟨pos, le_refl _, id⟩) := by
  have hp := lt_length_of_getElem?_some h
  cases t <;> try exact absurd rfl (ht _)
  all_goals
    (apply cursor_pair_ext <;>
      rw [object_loop.eq_def, dif_pos hp, get_eq_of_getElem?_some hp h])

theorem object_loop_colon_endOfTokens (tokens : List Token) (pos : ℕ)
    (acc : List (String × JsonValue)) (key : String)
    (hk : tokens[pos]? = some (.String key)) (h : tokens.length ≤ pos + 1) :
    object_loop tokens pos acc =
      (.error .UnexpectedEndOfTokens,
        ⟨pos + 1, by omega, fun _ => lt_length_of_getElem?_some hk⟩) := by
  have hkp := lt_length_of_getElem?_some hk
  apply cursor_pair_ext <;>
    (conv_lhs => rw [object_loop.eq_def]
     simp only [dif_pos hkp, get_eq_of_getElem?_some hkp hk,
       dif_neg (show ¬pos + 1 < tokens.length by omega)])

theorem object_loop_notcolon (tokens : List Token) (pos : ℕ)
    (acc : List (String × JsonValue)) (key : String) (t : Token)
    (hk : tokens[pos]? = some (.String key))
    (hc : tokens[pos + 1]? = some t) (ht : t ≠ .Colon) :
    object_loop tokens pos acc =
      (.error (.UnexpectedToken t),
        ⟨pos + 1, by omega, fun _ => lt_length_of_getElem?_some hk⟩) := by
  have hkp := lt_length_of_getElem?_some hk
  have hcp := lt_length_of_getElem?_some hc
  cases t <;> try exact absurd rfl ht
  all_goals
    (apply cursor_pair_ext <;>
      (conv_lhs => rw [object_loop.eq_def]
       simp only [dif_pos hkp, get_eq_of_getElem?_some hkp hk, dif_pos hcp,
         get_eq_of_getElem?_some hcp hc]))

theorem object_loop_value_err (tokens : List Token) (pos : ℕ)
    (acc : List (String × JsonValue)) (key : String) (e : ParseError)
    (hk : tokens[pos]? = some (.String key))
    (hc : tokens[pos + 1]? = some .Colon)
    (hv : (parse_value tokens (pos + 2)).1 = .error e) :
    object_loop tokens pos acc =
      (.error e,
        ⟨(parse_value tokens (pos + 2)).2.1,
          by have := (parse_value tokens (pos + 2)).2.2.1; omega,
          fun _ => (parse_value tokens (pos + 2)).2.2.2
            (by have := lt_length_of_getElem?_some hc; omega)⟩) := by
  have hkp := lt_length_of_getElem?_some hk
  have hcp := lt_length_of_getElem?_some hc
  rcases hpv : parse_value tokens (pos + 2) with ⟨r, qq⟩
  rw [hpv] at hv
  dsimp at hv
  subst hv
  apply cursor_pair_ext <;>
    (conv_lhs => rw [object_loop.eq_def]
     simp only [hpv, dif_pos hkp, get_eq_of_getElem?_some hkp hk, dif_pos hcp,
       get_eq_of_getElem?_some hcp hc])

theorem object_loop_sep_comma (tokens : List Token) (pos : ℕ)
    (acc : List (String × JsonValue)) (key : String) (v : JsonValue)
    (hk : tokens[pos]? = some (.String key))
    (hc : tokens[pos + 1]? = some .Colon)
    (hv : (parse_value tokens (pos + 2)).1 = .ok v)
    (hs : tokens[(parse_value tokens (pos + 2)).2.1]? = some .Comma) :
    object_loop tokens pos acc =
      ((object_loop tokens ((parse_value tokens (pos + 2)).2.1 + 1)
          (mapInsert key v acc)).1,
        ⟨(object_loop tokens ((parse_value tokens (pos + 2)).2.1 + 1)
            (mapInsert key v acc)).2.1,
          by
            have h1 := (parse_value tokens (pos + 2)).2.2.1
            have h2 := (object_loop tokens ((parse_value tokens (pos + 2)).2.1 + 1)
              (mapInsert key v acc)).2.2.1
            omega,
          fun _ => (object_loop tokens ((parse_value tokens (pos + 2)).2.1 + 1)
              (mapInsert key v acc)).2.2.2
            (by have := lt_length_of_getElem?_some hs; omega)⟩) := by
  have hkp := lt_length_of_getElem?_some hk
  have hcp := lt_length_of_getElem?_some hc
  have hqp := lt_length_of_getElem?_some hs
  have hpair : parse_value tokens (pos + 2)
      = (.ok v, (parse_value tokens (pos + 2)).2) := by
    rw [← hv, Prod.mk.eta]
  apply cursor_pair_ext <;>
    (conv_lhs => rw [object_loop.eq_def]
     conv_lhs => rw [hpair]
     simp only [dif_pos hkp, get_eq_of_getElem?_some hkp hk, dif_pos hcp,
       get_eq_of_getElem?_some hcp hc, dif_pos hqp,
       get_eq_of_getElem?_some hqp hs])

theorem object_loop_sep_rbrace (tokens : List Token) (pos : ℕ)
    (acc : List (String × JsonValue)) (key : String) (v : JsonValue)
    (hk : tokens[pos]? = some (.String key))
    (hc : tokens[pos + 1]? = some .Colon)
    (hv : (parse_value tokens (pos + 2)).1 = .ok v)
    (hs : tokens[(parse_value tokens (pos + 2)).2.1]? = some .RBrace) :
    object_loop tokens pos acc =
      (.ok (.Object (mapInsert key v acc)),
        ⟨(parse_value tokens (pos + 2)).2.1 + 1,
          by have := (parse_value tokens (pos + 2)).2.2.1; omega,
          fun _ => lt_length_of_getElem?_some hs⟩) := by
  have hkp := lt_length_of_getElem?_some hk
  have hcp := lt_length_of_getElem?_some hc
  have hqp := lt_length_of_getElem?_some hs
  have hpair : parse_value tokens (pos + 2)
      = (.ok v, (parse_value tokens (pos + 2)).2) := by
    rw [← hv, Prod.mk.eta]
  apply cursor_pair_ext <;>
    (conv_lhs => rw [object_loop.eq_def]
     conv_lhs => rw [hpair]
     simp only [dif_pos hkp, get_eq_of_getElem?_some hkp hk, dif_pos hcp,
       get_eq_of_getElem?_some hcp hc, dif_pos hqp,
       get_eq_of_getElem?_some hqp hs])

theorem object_loop_sep_wrong (tokens : List Token) (pos : ℕ)
    (acc : List (String × JsonValue)) (key : String) (v : JsonValue) (t : Token)
    (hk : tokens[pos]? = some (.String key))
    (hc : tokens[pos + 1]? = some .Colon)
    (hv : (parse_value tokens (pos + 2)).1 = .ok v)
    (hs : tokens[(parse_value tokens (pos + 2)).2.1]? = some t)
    (ht : t ≠ .Comma) (ht' : t ≠ .RBrace) :
    object_loop tokens pos acc =
      (.error (.UnexpectedToken t),
        ⟨(parse_value tokens (pos + 2)).2.1,
          by have := (parse_value tokens (pos + 2)).2.2.1; omega,
          fun _ => (parse_value tokens (pos + 2)).2.2.2
            (by have := lt_length_of_getElem?_some hc; omega)⟩) := by
  have hkp := lt_length_of_getElem?_some hk
  have hcp := lt_length_of_getElem?_some hc
  have hqp := lt_length_of_getElem?_some hs
  rcases hpv : parse_value tokens (pos + 2) with ⟨r, qq⟩
  rw [hpv] at hv hs hqp
  dsimp at hv hs hqp
  subst hv
  cases t <;> try exact absurd rfl ht
  all_goals try exact absurd rfl ht'
  all_goals
    (apply cursor_pair_ext <;>
      (conv_lhs => rw [object_loop.eq_def]
       simp only [hpv, dif_pos hkp, get_eq_of_getElem?_some hkp hk, dif_pos hcp,
         get_eq_of_getElem?_some hcp hc, dif_pos hqp,
         get_eq_of_getElem?_some hqp hs]))

theorem object_loop_sep_endOfTokens (tokens : List Token) (pos : ℕ)
    (acc : List (String × JsonValue)) (key : String) (v : JsonValue)
    (hk : tokens[pos]? = some (.String key))
    (hc : tokens[pos + 1]? = some .Colon)
    (hv : (parse_value tokens (pos + 2)).1 = .ok v)
    (hs : tokens.length ≤ (parse_value tokens (pos + 2)).2.1) :
    object_loop tokens pos acc =
      (.error .UnexpectedEndOfTokens,
        ⟨(parse_value tokens (pos + 2)).2.1,
          by have := (parse_value tokens (pos + 2)).2.2.1; omega,
          fun _ => (parse_value tokens (pos + 2)).2.2.2
            (by have := lt_length_of_getElem?_some hc; omega)⟩) := by
  have hkp := lt_length_of_getElem?_some hk
  have hcp := lt_length_of_getElem?_some hc
  rcases hpv : parse_value tokens (pos + 2) with ⟨r, qq⟩
  rw [hpv] at hv hs
  dsimp at hv hs
  subst hv
  apply cursor_pair_ext <;>
    (conv_lhs => rw [object_loop.eq_def]
     simp only [hpv, dif_pos hkp, get_eq_of_getElem?_some hkp hk, dif_pos hcp,
       get_eq_of_getElem?_some hcp hc,
       dif_neg (show ¬(qq.1 : ℕ) < tokens.length by omega)])

theorem array_loop_value_err (tokens : List Token) (pos : ℕ)
    (acc : List JsonValue) (e : ParseError)
    (hv : (parse_value tokens pos).1 = .error e) :
    array_loop tokens pos acc =
      (.error e,
        ⟨(parse_value tokens pos).2.1, (parse_value tokens pos).2.2.1,
          (parse_value tokens pos).2.2.2⟩) := by
  rcases hpv : parse_value tokens pos with ⟨r, qq⟩
  rw [hpv] at hv
  dsimp at hv
  subst hv
  apply cursor_pair_ext <;>
    (conv_lhs => rw [array_loop.eq_def]
     simp only [hpv])

theorem array_loop_sep_comma (tokens : List Token) (pos : ℕ)
    (acc : List JsonValue) (v : JsonValue)
    (hv : (parse_value tokens pos).1 = .ok v)
    (hs : tokens[(parse_value tokens pos).2.1]? = some .Comma) :
    array_loop tokens pos acc =
      ((array_loop tokens ((parse_value tokens pos).2.1 + 1) (acc ++ [v])).1,
        ⟨(array_loop tokens ((parse_value tokens pos).2.1 + 1) (acc ++ [v])).2.1,
          by
            have h1 := (parse_value tokens pos).2.2.1
            have h2 := (array_loop tokens ((parse_value tokens pos).2.1 + 1)
              (acc ++ [v])).2.2.1
            omega,
          fun _ => (array_loop tokens ((parse_value tokens pos).2.1 + 1)
              (acc ++ [v])).2.2.2
            (by have := lt_length_of_getElem?_some hs; omega)⟩) := by
  have hqp := lt_length_of_getElem?_some hs
  have hpair : parse_value tokens pos
      = (.ok v, (parse_value tokens pos).2) := by
    rw [← hv, Prod.mk.eta]
  apply cursor_pair_ext <;>
    (conv_lhs => rw [array_loop.eq_def]
     conv_lhs => rw [hpair]
     simp only [dif_pos hqp, get_eq_of_getElem?_some hqp hs])

theorem array_loop_sep_rbracket (tokens : List Token) (pos : ℕ)
    (acc : List JsonValue) (v : JsonValue)
    (hv : (parse_value tokens pos).1 = .ok v)
    (hs : tokens[(parse_value tokens pos).2.1]? = some .RBracket) :
    array_loop tokens pos acc =
      (.ok (.Array (acc ++ [v])),
        ⟨(parse_value tokens pos).2.1 + 1,
          by have := (parse_value tokens pos).2.2.1; omega,
          fun _ => lt_length_of_getElem?_some hs⟩) := by
  have hqp := lt_length_of_getElem?_some hs
  have hpair : parse_value tokens pos
      = (.ok v, (parse_value tokens pos).2) := by
    rw [← hv, Prod.mk.eta]
  apply cursor_pair_ext <;>
    (conv_lhs => rw [array_loop.eq_def]
     conv_lhs => rw [hpair]
     simp only [dif_pos hqp, get_eq_of_getElem?_some hqp hs])

theorem array_loop_sep_wrong (tokens : List Token) (pos : ℕ)
    (acc : List JsonValue) (v : JsonValue) (t : Token)
    (hv : (parse_value tokens pos).1 = .ok v)
    (hs : tokens[(parse_value tokens pos).2.1]? = some t)
    (ht : t ≠ .Comma) (ht' : t ≠ .RBracket) :
    array_loop tokens pos acc =
      (.error (.UnexpectedToken t),
        ⟨(parse_value tokens pos).2.1, (parse_value tokens pos).2.2.1,
          (parse_value tokens pos).2.2.2⟩) := by
  have hqp := lt_length_of_getElem?_some hs
  rcases hpv : parse_value tokens pos with ⟨r, qq⟩
  rw [hpv] at hv hs hqp
  dsimp at hv hs hqp
  subst hv
  cases t <;> try exact absurd rfl ht
  all_goals try exact absurd rfl ht'
  all_goals
    (apply cursor_pair_ext <;>
      (conv_lhs => rw [array_loop.eq_def]
       simp only [hpv, dif_pos hqp, get_eq_of_getElem?_some hqp hs]))

theorem array_loop_sep_endOfTokens (tokens : List Token) (pos : ℕ)
    (acc : List JsonValue) (v : JsonValue)
    (hv : (parse_value tokens pos).1 = .ok v)
    (hs : tokens.length ≤ (parse_value tokens pos).2.1) :
    array_loop tokens pos acc =
      (.error .UnexpectedEndOfTokens,
        ⟨(parse_value tokens pos).2.1, (parse_value tokens pos).2.2.1,
          (parse_value tokens pos).2.2.2⟩) := by
  rcases hpv : parse_value tokens pos with ⟨r, qq⟩
  rw [hpv] at hv hs
  dsimp at hv hs
  subst hv
  apply cursor_pair_ext <;>
    (conv_lhs => rw [array_loop.eq_def]
     simp only [hpv, dif_neg (show ¬(qq.1 : ℕ) < tokens.length by omega)])

theorem parse_json_done (tokens : List Token) (v : JsonValue)
    (hv : (parse_value tokens 0).1 = .ok v)
    (hp : tokens.length ≤ (parse_value tokens 0).2.1) :
    parse_json tokens = .ok v := by
  rcases hpv : parse_value tokens 0 with ⟨r, qq⟩
  rw [hpv] at hv hp
  dsimp at hv hp
  subst hv
  simp only [parse_json, hpv]
  rw [dif_neg (by omega)]

theorem parse_json_trailing (tokens : List Token) (v : JsonValue) (t : Token)
    (hv : (parse_value tokens 0).1 = .ok v)
    (ht : tokens[(parse_value tokens 0).2.1]? = some t) :
    parse_json tokens = .error (.UnexpectedToken t) := by
  have hq := lt_length_of_getElem?_some ht
  rcases hpv : parse_value tokens 0 with ⟨r, qq⟩
  rw [hpv] at hv ht hq
  dsimp at hv ht hq
  subst hv
  simp only [parse_json, hpv]
  rw [dif_pos hq, get_eq_of_getElem?_some hq ht]

theorem parse_json_err (tokens : List Token) (e : ParseError)
    (hv : (parse_value tokens 0).1 = .error e) :
    parse_json tokens = .error e := by
  rcases hpv : parse_value tokens 0 with ⟨r, qq⟩
  rw [hpv] at hv
  dsimp at hv
  subst hv
  simp only [parse_json, hpv]

/-- Rust `parse_json_str`: tokenize, then parse, tagging the error by
stage. -/
def parse_json_str (input : String) : Except JsonError JsonValue :=
  match tokenize input with
  | .error e => .error (.lexErr e)
  | .ok tokens =>
    match parse_json tokens with
    | .error e => .error (.parseErr e)
    | .ok v => .ok v

theorem parse_json_str_lexErr (input : String) (e : LexError)
    (h : tokenize input = .error e) :
    parse_json_str input = .error (.lexErr e) := by
  simp only [parse_json_str, h]

theorem parse_json_str_ok (input : String) (ts : List Token) (v : JsonValue)
    (h : tokenize input = .ok ts) (h2 : parse_json ts = .ok v) :
    parse_json_str input = .ok v := by
  simp only [parse_json_str, h, h2]

theorem parse_json_str_parseErr (input : String) (ts : List Token)
    (e : ParseError) (h : tokenize input = .ok ts)
    (h2 : parse_json ts = .error e) :
    parse_json_str input = .error (.parseErr e) := by
  simp only [parse_json_str, h, h2]

/-!  Character-class facts and step equations for the scanner. -/

theorem ne_char_of_bounds {c : Char} {lo hi : ℕ}
    (hb : lo ≤ c.toNat ∧ c.toNat ≤ hi) (d : Char)
    (hd : ¬(lo ≤ d.toNat ∧ d.toNat ≤ hi)) : ¬c = d := by
  intro he
  subst he
  exact hd hb

theorem ne_char_of_alpha {c : Char}
    (hb : 65 ≤ c.toNat ∧ c.toNat ≤ 90 ∨ 97 ≤ c.toNat ∧ c.toNat ≤ 122)
    (d : Char)
    (hd : ¬(65 ≤ d.toNat ∧ d.toNat ≤ 90 ∨ 97 ≤ d.toNat ∧ d.toNat ≤ 122)) :
    ¬c = d := by
  intro he
  subst he
  exact hd hb

/-- A character opening a number run is not whitespace, not structural,
not a quote and not alphabetic: the scanner's earlier branches do not
fire on it. -/
theorem numStart_class (c : Char) (h : isDigitOrMinus c = true) :
    isWsChar c = false ∧ structTok? c = none ∧ ¬c = '"' ∧
      isAlphaChar c = false := by
  have hb : 45 ≤ c.toNat ∧ c.toNat ≤ 57 := by
    simp only [isDigitOrMinus, isAsciiDigit, Bool.or_eq_true,
      Bool.and_eq_true, decide_eq_true_eq] at h
    rcases h with ⟨h1, h2⟩ | rfl
    · omega
    · constructor <;> decide
  refine ⟨?_, ?_, ne_char_of_bounds hb '"' (by decide), ?_⟩
  · simp [isWsChar, ne_char_of_bounds hb ' ' (by decide),
      ne_char_of_bounds hb '\n' (by decide),
      ne_char_of_bounds hb '\t' (by decide),
      ne_char_of_bounds hb '\r' (by decide)]
  · simp [structTok?, ne_char_of_bounds hb '{' (by decide),
      ne_char_of_bounds hb '}' (by decide),
      ne_char_of_bounds hb '[' (by decide),
      ne_char_of_bounds hb ']' (by decide),
      ne_char_of_bounds hb ':' (by decide),
      ne_char_of_bounds hb ',' (by decide)]
  · simp only [isAlphaChar, Bool.or_eq_false_iff, Bool.and_eq_false_iff,
      decide_eq_false_iff_not]
    omega

/-- An alphabetic character is not whitespace, not structural and not a
quote. -/
theorem alpha_class (c : Char) (h : isAlphaChar c = true) :
    isWsChar c = false ∧ structTok? c = none ∧ ¬c = '"' := by
  have hb : 65 ≤ c.toNat ∧ c.toNat ≤ 90 ∨ 97 ≤ c.toNat ∧ c.toNat ≤ 122 := by
    simpa only [isAlphaChar, Bool.or_eq_true, Bool.and_eq_true,
      decide_eq_true_eq] using h
  refine ⟨?_, ?_, ne_char_of_alpha hb '"' (by decide)⟩
  · simp [isWsChar, ne_char_of_alpha hb ' ' (by decide),
      ne_char_of_alpha hb '\n' (by decide),
      ne_char_of_alpha hb '\t' (by decide),
      ne_char_of_alpha hb '\r' (by decide)]
  · simp [structTok?, ne_char_of_alpha hb '{' (by decide),
      ne_char_of_alpha hb '}' (by decide),
      ne_char_of_alpha hb '[' (by decide),
      ne_char_of_alpha hb ']' (by decide),
      ne_char_of_alpha hb ':' (by decide),
      ne_char_of_alpha hb ',' (by decide)]

theorem structTok?_chars {c : Char} {t : Token} (h : structTok? c = some t) :
    c = '{' ∨ c = '}' ∨ c = '[' ∨ c = ']' ∨ c = ':' ∨ c = ',' := by
  by_contra hc
  push_neg at hc
  obtain ⟨h1, h2, h3, h4, h5, h6⟩ := hc
  simp [structTok?, h1, h2, h3, h4, h5, h6] at h

theorem tokenizeAux_nil (i : ℕ) : tokenizeAux i [] = .ok [] := by
  rw [tokenizeAux.eq_def]

/-- Spec: whitespace is skipped and produces no token. -/
theorem tokenizeAux_ws (i : ℕ) (w : Char) (cs : List Char)
    (h : isWsChar w = true) :
    tokenizeAux i (w :: cs) = tokenizeAux (i + 1) cs := by
  conv_lhs => rw [tokenizeAux.eq_def]
  simp [h]

theorem tokenizeAux_struct (i : ℕ) (c : Char) (t : Token) (cs : List Char)
    (h : structTok? c = some t) :
    tokenizeAux i (c :: cs) =
      (tokenizeAux (i + 1) cs).map (fun ts => t :: ts) := by
  have hw : isWsChar c = false := by
    rcases structTok?_chars h with rfl | rfl | rfl | rfl | rfl | rfl <;> decide
  conv_lhs => rw [tokenizeAux.eq_def]
  simp [hw, h]

theorem tokenizeAux_quote_err (i : ℕ) (cs : List Char) (e : LexError)
    (h : scanString i cs = .error e) :
    tokenizeAux i ('"' :: cs) = .error e := by
  conv_lhs => rw [tokenizeAux.eq_def]
  simp [isWsChar, structTok?, h]

theorem tokenizeAux_quote_ok (i : ℕ) (cs content : List Char) (n : ℕ)
    (h : scanString i cs = .ok (content, n)) :
    tokenizeAux i ('"' :: cs) =
      (tokenizeAux (i + 1 + n) (cs.drop n)).map
        (fun ts => Token.String (String.mk content) :: ts) := by
  conv_lhs => rw [tokenizeAux.eq_def]
  simp [isWsChar, structTok?, h]

theorem tokenizeAux_alpha_true (i : ℕ) (c : Char) (cs : List Char)
    (h : isAlphaChar c = true)
    (hid : String.mk (c :: cs.takeWhile isAlphaChar) = "true") :
    tokenizeAux i (c :: cs) =
      (tokenizeAux (i + 1 + (cs.takeWhile isAlphaChar).length)
          (cs.drop (cs.takeWhile isAlphaChar).length)).map
        (fun ts => Token.True :: ts) := by
  obtain ⟨hw, hst, hq⟩ := alpha_class c h
  conv_lhs => rw [tokenizeAux.eq_def]
  simp [hw, hst, hq, h, hid]

theorem tokenizeAux_alpha_false (i : ℕ) (c : Char) (cs : List Char)
    (h : isAlphaChar c = true)
    (hid : String.mk (c :: cs.takeWhile isAlphaChar) = "false") :
    tokenizeAux i (c :: cs) =
      (tokenizeAux (i + 1 + (cs.takeWhile isAlphaChar).length)
          (cs.drop (cs.takeWhile isAlphaChar).length)).map
        (fun ts => Token.False :: ts) := by
  obtain ⟨hw, hst, hq⟩ := alpha_class c h
  have hne : ¬String.mk (c :: cs.takeWhile isAlphaChar) = "true" := by
    rw [hid]
    decide
  conv_lhs => rw [tokenizeAux.eq_def]
  simp [hw, hst, hq, h, hid, hne]

theorem tokenizeAux_alpha_null (i : ℕ) (c : Char) (cs : List Char)
    (h : isAlphaChar c = true)
    (hid : String.mk (c :: cs.takeWhile isAlphaChar) = "null") :
    tokenizeAux i (c :: cs) =
      (tokenizeAux (i + 1 + (cs.takeWhile isAlphaChar).length)
          (cs.drop (cs.takeWhile isAlphaChar).length)).map
        (fun ts => Token.Null :: ts) := by
  obtain ⟨hw, hst, hq⟩ := alpha_class c h
  have hne : ¬String.mk (c :: cs.takeWhile isAlphaChar) = "true" := by
    rw [hid]
    decide
  have hne' : ¬String.mk (c :: cs.takeWhile isAlphaChar) = "false" := by
    rw [hid]
    decide
  conv_lhs => rw [tokenizeAux.eq_def]
  simp [hw, hst, hq, h, hid, hne, hne']

/-- Spec: an alphabetic run other than `true`, `false`, `null` fails with
`InvalidToken` carrying the first character of the run and its index. -/
theorem tokenizeAux_alpha_invalid (i : ℕ) (c : Char) (cs : List Char)
    (h : isAlphaChar c = true)
    (h1 : ¬String.mk (c :: cs.takeWhile isAlphaChar) = "true")
    (h2 : ¬String.mk (c :: cs.takeWhile isAlphaChar) = "false")
    (h3 : ¬String.mk (c :: cs.takeWhile isAlphaChar) = "null") :
    tokenizeAux i (c :: cs) = .error (.InvalidToken c i) := by
  obtain ⟨hw, hst, hq⟩ := alpha_class c h
  conv_lhs => rw [tokenizeAux.eq_def]
  simp [hw, hst, hq, h, h1, h2, h3]

/-- Spec: a run starting with a digit or `-` is accumulated greedily over
`{digit, '.', 'e', 'E', '+', '-'}` with no validation, yielding a Number
token holding the raw text. -/
theorem tokenizeAux_num (i : ℕ) (c : Char) (cs : List Char)
    (h : isDigitOrMinus c = true) :
    tokenizeAux i (c :: cs) =
      (tokenizeAux (i + 1 + (cs.takeWhile isNumChar).length)
          (cs.drop (cs.takeWhile isNumChar).length)).map
        (fun ts => Token.Number (String.mk (c :: cs.takeWhile isNumChar)) :: ts) := by
  obtain ⟨hw, hst, hq, ha⟩ := numStart_class c h
  conv_lhs => rw [tokenizeAux.eq_def]
  simp [hw, hst, hq, ha, h]

/-- Spec: any other character fails immediately with `InvalidToken`. -/
theorem tokenizeAux_invalid (i : ℕ) (c : Char) (cs : List Char)
    (hw : isWsChar c = false) (hst : structTok? c = none) (hq : ¬c = '"')
    (ha : isAlphaChar c = false) (hd : isDigitOrMinus c = false) :
    tokenizeAux i (c :: cs) = .error (.InvalidToken c i) := by
  conv_lhs => rw [tokenizeAux.eq_def]
  simp [hw, hst, hq, ha, hd]

/-!  Facts about the string-scanning loop. -/

/-- C6 machinery: inside a string, a backslash followed by `e` contributes
exactly `decodeEscape e` to the decoded content. -/
theorem scanString_escape (i : ℕ) (e : Char) (cs content : List Char) (n : ℕ)
    (h : scanString i cs = .ok (content, n)) :
    scanString i ('\\' :: e :: cs) = .ok (decodeEscape e :: content, n + 2) := by
  rw [scanString.eq_def]
  simp [h]

/-- The only error the string scanner ever produces is `UnterminatedString`
carrying the opening quote's index. -/
theorem scanString_error_eq (i : ℕ) (cs : List Char) :
    ∀ e : LexError, scanString i cs = .error e → e = .UnterminatedString i := by
  refine scanString.induct i
    (fun l => ∀ e : LexError,
      scanString i l = .error e → e = .UnterminatedString i)
    ?_ ?_ ?_ ?_ ?_ ?_ ?_ cs
  · intro e h
    rw [scanString.eq_def] at h
    simp at h
    exact h.symm
  · intro cs' e h
    rw [scanString.eq_def] at h
    simp at h
  · intro hne e h
    rw [scanString.eq_def] at h
    simp at h
    exact h.symm
  · intro ch cs' content n hok hne ih e h
    rw [scanString.eq_def] at h
    simp [hok] at h
  · intro ch cs' err herr hne ih e h
    rw [scanString.eq_def] at h
    simp [herr] at h
    rw [← h]
    exact ih err herr
  · intro ch cs' hq hb content n hok ih e h
    rw [scanString.eq_def] at h
    simp [hq, hb, hok] at h
  · intro ch cs' hq hb err herr ih e h
    rw [scanString.eq_def] at h
    simp [hq, hb, herr] at h
    rw [← h]
    exact ih err herr

/-- If the characters after the opening quote contain no unescaped
closing quote, the string scan fails with `UnterminatedString` at the
opening quote's index. -/
theorem scanString_noClose (cs : List Char) (i : ℕ) :
    hasUnescapedClose cs = false →
    scanString i cs = .error (.UnterminatedString i) := by
  refine scanString.induct i
    (fun l => hasUnescapedClose l = false →
      scanString i l = .error (.UnterminatedString i))
    ?_ ?_ ?_ ?_ ?_ ?_ ?_ cs
  · intro _
    rw [scanString.eq_def]
  · intro cs' hcl
    rw [hasUnescapedClose.eq_def] at hcl
    simp at hcl
  · intro _ _
    rw [scanString.eq_def]
    simp
  · intro ch cs' content n hok hne ih hcl
    rw [hasUnescapedClose.eq_def] at hcl
    simp at hcl
    rw [ih hcl] at hok
    exact Except.noConfusion hok
  · intro ch cs' err herr hne ih hcl
    rw [hasUnescapedClose.eq_def] at hcl
    simp at hcl
    have hrec := ih hcl
    rw [scanString.eq_def]
    simp [hrec]
  · intro ch cs' hq hb content n hok ih hcl
    rw [hasUnescapedClose.eq_def] at hcl
    simp [hq, hb] at hcl
    rw [ih hcl] at hok
    exact Except.noConfusion hok
  · intro ch cs' hq hb err herr ih hcl
    rw [hasUnescapedClose.eq_def] at hcl
    simp [hq, hb] at hcl
    have hrec := ih hcl
    rw [scanString.eq_def]
    simp [hq, hb, hrec]

/-- A successful string scan is insensitive to the opening-quote index
and to any characters appended after the consumed part. -/
theorem scanString_append_ok (i : ℕ) (cs : List Char) :
    ∀ (j : ℕ) (rest content : List Char) (n : ℕ),
      scanString i cs = .ok (content, n) →
      scanString j (cs ++ rest) = .ok (content, n) := by
  refine scanString.induct i
    (fun l => ∀ (j : ℕ) (rest content : List Char) (n : ℕ),
      scanString i l = .ok (content, n) →
      scanString j (l ++ rest) = .ok (content, n))
    ?_ ?_ ?_ ?_ ?_ ?_ ?_ cs
  · intro j rest content n h
    rw [scanString.eq_def] at h
    simp at h
  · intro cs' j rest content n h
    rw [scanString.eq_def] at h
    simp at h
    obtain ⟨rfl, rfl⟩ := h
    rw [List.cons_append, scanString.eq_def]
    simp
  · intro hne j rest content n h
    rw [scanString.eq_def] at h
    simp at h
  · intro ch cs' content n hok hne ih j rest content' n' h
    rw [scanString.eq_def] at h
    simp [hok] at h
    obtain ⟨rfl, rfl⟩ := h
    have hrec := ih j rest content n hok
    rw [List.cons_append, List.cons_append, scanString.eq_def]
    simp [hrec]
  · intro ch cs' err herr hne ih j rest content' n' h
    rw [scanString.eq_def] at h
    simp [herr] at h
  · intro ch cs' hq hb content n hok ih j rest content' n' h
    rw [scanString.eq_def] at h
    simp [hq, hb, hok] at h
    obtain ⟨rfl, rfl⟩ := h
    have hrec := ih j rest content n hok
    rw [List.cons_append, scanString.eq_def]
    simp [hq, hb, hrec]
  · intro ch cs' hq hb err herr ih j rest content' n' h
    rw [scanString.eq_def] at h
    simp [hq, hb, herr] at h

/-!  Whitespace-between-tokens machinery (C5): each token lexeme scans
as itself at any position, provided the following character does not
extend it; hence two inputs with the same lexemes and arbitrary
whitespace between them tokenize identically. -/

theorem takeWhile_append_all {p : Char → Bool} :
    ∀ {xs : List Char} (ys : List Char), (∀ x ∈ xs, p x = true) →
      (xs ++ ys).takeWhile p = xs ++ ys.takeWhile p := by
  intro xs
  induction xs with
  | nil => intro ys _; rfl
  | cons a l ih =>
    intro ys h
    rw [List.cons_append]
    rw [List.takeWhile_cons_of_pos (h a (by simp))]
    rw [ih ys (fun x hx => h x (by simp [hx]))]
    rw [List.cons_append]

theorem takeWhile_nil_of_follow {p : Char → Bool} :
    ∀ {ys : List Char}, (∀ c l, ys = c :: l → p c = false) →
      ys.takeWhile p = []
  | [], _ => rfl
  | c :: l, h => List.takeWhile_cons_of_neg (by simp [h c l rfl])

theorem followOk_true_takeWhile {rest : List Char} (hf : FollowOk .True rest) :
    rest.takeWhile isAlphaChar = [] := by
  cases rest with
  | nil => rfl
  | cons c l => exact List.takeWhile_cons_of_neg (by simp [FollowOk] at hf; simp [hf])

theorem followOk_false_takeWhile {rest : List Char} (hf : FollowOk .False rest) :
    rest.takeWhile isAlphaChar = [] := by
  cases rest with
  | nil => rfl
  | cons c l => exact List.takeWhile_cons_of_neg (by simp [FollowOk] at hf; simp [hf])

theorem followOk_null_takeWhile {rest : List Char} (hf : FollowOk .Null rest) :
    rest.takeWhile isAlphaChar = [] := by
  cases rest with
  | nil => rfl
  | cons c l => exact List.takeWhile_cons_of_neg (by simp [FollowOk] at hf; simp [hf])

theorem followOk_num_takeWhile {raw : String} {rest : List Char}
    (hf : FollowOk (.Number raw) rest) :
    rest.takeWhile isNumChar = [] := by
  cases rest with
  | nil => rfl
  | cons c l => exact List.takeWhile_cons_of_neg (by simp [FollowOk] at hf; simp [hf])

/-- A token lexeme scans as exactly its token, from any scan position,
when the following character does not extend it. -/
theorem scanTok_step (lex : List Char) (t : Token) (rest : List Char)
    (hscan : ScanTok lex t) (hf : FollowOk t rest) (i : ℕ) :
    tokenizeAux i (lex ++ rest) =
      (tokenizeAux (i + lex.length) rest).map (fun ts => t :: ts) := by
  cases hscan with
  | lbrace => exact tokenizeAux_struct i '{' .LBrace rest rfl
  | rbrace => exact tokenizeAux_struct i '}' .RBrace rest rfl
  | lbracket => exact tokenizeAux_struct i '[' .LBracket rest rfl
  | rbracket => exact tokenizeAux_struct i ']' .RBracket rest rfl
  | colon => exact tokenizeAux_struct i ':' .Colon rest rfl
  | comma => exact tokenizeAux_struct i ',' .Comma rest rfl
  | tru =>
    have hrest := followOk_true_takeWhile hf
    have := tokenizeAux_alpha_true i 't' ('r' :: 'u' :: 'e' :: rest)
      (by decide) (by simp [List.takeWhile_cons, hrest]; rfl)
    simpa [List.takeWhile_cons, hrest] using this
  | fls =>
    have hrest := followOk_false_takeWhile hf
    have := tokenizeAux_alpha_false i 'f' ('a' :: 'l' :: 's' :: 'e' :: rest)
      (by decide) (by simp [List.takeWhile_cons, hrest]; rfl)
    simpa [List.takeWhile_cons, hrest] using this
  | nul =>
    have hrest := followOk_null_takeWhile hf
    have := tokenizeAux_alpha_null i 'n' ('u' :: 'l' :: 'l' :: rest)
      (by decide) (by simp [List.takeWhile_cons, hrest]; rfl)
    simpa [List.takeWhile_cons, hrest] using this
  | num c body hd hb =>
    have htw : (body ++ rest).takeWhile isNumChar = body := by
      rw [takeWhile_append_all rest hb, followOk_num_takeWhile hf,
        List.append_nil]
    have := tokenizeAux_num i c (body ++ rest) hd
    rw [List.cons_append, this, htw, List.drop_left]
    have hlen : i + 1 + body.length = i + (c :: body).length := by
      simp only [List.length_cons]
      omega
    rw [hlen]
  | str body content hsc =>
    have hsc' := scanString_append_ok 0 body i rest content body.length hsc
    have := tokenizeAux_quote_ok i (body ++ rest) content body.length hsc'
    rw [List.cons_append, this, List.drop_left]
    have hlen : i + 1 + body.length = i + ('"' :: body).length := by
      simp only [List.length_cons]
      omega
    rw [hlen]

/-- Two inputs made of the same token lexemes with arbitrary whitespace
between them tokenize to the same token sequence (successfully), from
any starting index. -/
theorem wsIns_tokenize (cs cs' : List Char) (h : WsIns cs cs') :
    ∃ ts : List Token, (∀ i, tokenizeAux i cs = .ok ts) ∧
      (∀ j, tokenizeAux j cs' = .ok ts) := by
  induction h with
  | nil => exact ⟨[], fun i => tokenizeAux_nil i, fun j => tokenizeAux_nil j⟩
  | wsR w cs0 cs0' hw _ ih =>
    obtain ⟨ts, h1, h2⟩ := ih
    exact ⟨ts, h1, fun j => by rw [tokenizeAux_ws j w cs0' hw]; exact h2 (j + 1)⟩
  | wsL w cs0 cs0' hw _ ih =>
    obtain ⟨ts, h1, h2⟩ := ih
    exact ⟨ts, fun i => by rw [tokenizeAux_ws i w cs0 hw]; exact h1 (i + 1), h2⟩
  | tok lex t cs0 cs0' hscan hf hf' _ ih =>
    obtain ⟨ts, h1, h2⟩ := ih
    refine ⟨t :: ts, fun i => ?_, fun j => ?_⟩
    · rw [scanTok_step lex t cs0 hscan hf i, h1 (i + lex.length)]
      rfl
    · rw [scanTok_step lex t cs0' hscan hf' j, h2 (j + lex.length)]
      rfl

/-!  Concrete runs of the two pipeline stages on the inputs named by the
spec's testable properties. -/

theorem tok_one_two : tokenize "1 2" = .ok [.Number "1", .Number "2"] := by
  simp [tokenize, tokenizeAux, structTok?, isWsChar, isAlphaChar, isAsciiDigit,
    isDigitOrMinus, isNumChar, scanString, Except.map, decodeEscape]

theorem tok_obj_obj : tokenize "{} {}" = .ok [.LBrace, .RBrace, .LBrace, .RBrace] := by
  simp [tokenize, tokenizeAux, structTok?, isWsChar, isAlphaChar, isAsciiDigit,
    isDigitOrMinus, isNumChar, scanString, Except.map, decodeEscape]

theorem tok_arr_arr : tokenize "[1][2]" =
    .ok [.LBracket, .Number "1", .RBracket, .LBracket, .Number "2", .RBracket] := by
  simp [tokenize, tokenizeAux, structTok?, isWsChar, isAlphaChar, isAsciiDigit,
    isDigitOrMinus, isNumChar, scanString, Except.map, decodeEscape]

theorem tok_badnum : tokenize "1-2-3" = .ok [.Number "1-2-3"] := by
  simp [tokenize, tokenizeAux, structTok?, isWsChar, isAlphaChar, isAsciiDigit,
    isDigitOrMinus, isNumChar, scanString, Except.map, decodeEscape]

theorem tok_unterminated : tokenize "\"abc" = .error (.UnterminatedString 0) := by
  simp [tokenize, tokenizeAux, structTok?, isWsChar, isAlphaChar, isAsciiDigit,
    isDigitOrMinus, isNumChar, scanString, Except.map, decodeEscape]

theorem tok_dup_obj : tokenize "\x7b\"a\":1,\"a\":2\x7d" =
    .ok [.LBrace, .String "a", .Colon, .Number "1", .Comma, .String "a",
      .Colon, .Number "2", .RBrace] := by
  simp [tokenize, tokenizeAux, structTok?, isWsChar, isAlphaChar, isAsciiDigit,
    isDigitOrMinus, isNumChar, scanString, Except.map, decodeEscape]

theorem tok_twelve : tokenize "12" = .ok [.Number "12"] := by
  simp [tokenize, tokenizeAux, structTok?, isWsChar, isAlphaChar, isAsciiDigit,
    isDigitOrMinus, isNumChar, scanString, Except.map, decodeEscape]

theorem tok_one : tokenize "1" = .ok [.Number "1"] := by
  simp [tokenize, tokenizeAux, structTok?, isWsChar, isAlphaChar, isAsciiDigit,
    isDigitOrMinus, isNumChar, scanString, Except.map, decodeEscape]

theorem tok_escstr : tokenize "\"a\\nb\"" = .ok [.String "a\nb"] := by
  simp [tokenize, tokenizeAux, structTok?, isWsChar, isAlphaChar, isAsciiDigit,
    isDigitOrMinus, isNumChar, scanString, Except.map, decodeEscape]

theorem tok_truee : tokenize "truee" = .error (.InvalidToken 't' 0) := by
  simp [tokenize, tokenizeAux, structTok?, isWsChar, isAlphaChar, isAsciiDigit,
    isDigitOrMinus, isNumChar, scanString, Except.map, decodeEscape]

theorem tok_arr_trailing : tokenize "[1,]" =
    .ok [.LBracket, .Number "1", .Comma, .RBracket] := by
  simp [tokenize, tokenizeAux, structTok?, isWsChar, isAlphaChar, isAsciiDigit,
    isDigitOrMinus, isNumChar, scanString, Except.map, decodeEscape]

theorem tok_obj_trailing : tokenize "\x7b\"a\":1,\x7d" =
    .ok [.LBrace, .String "a", .Colon, .Number "1", .Comma, .RBrace] := by
  simp [tokenize, tokenizeAux, structTok?, isWsChar, isAlphaChar, isAsciiDigit,
    isDigitOrMinus, isNumChar, scanString, Except.map, decodeEscape]

theorem tok_empty_arr : tokenize "[]" = .ok [.LBracket, .RBracket] := by
  simp [tokenize, tokenizeAux, structTok?, isWsChar, isAlphaChar, isAsciiDigit,
    isDigitOrMinus, isNumChar, scanString, Except.map, decodeEscape]

theorem tok_empty_obj : tokenize "{}" = .ok [.LBrace, .RBrace] := by
  simp [tokenize, tokenizeAux, structTok?, isWsChar, isAlphaChar, isAsciiDigit,
    isDigitOrMinus, isNumChar, scanString, Except.map, decodeEscape]

theorem tok_empty : tokenize "" = .ok [] := tokenizeAux_nil 0

theorem pj_num_pair : parse_json [.Number "1", .Number "2"] =
    .error (.UnexpectedToken (.Number "2")) := by
  set toks : List Token := [.Number "1", .Number "2"] with htoks
  have h1 := parse_value_number_ok toks 0 "1" 1 rfl
    (by simp [parseFloat?, digitsVal, isAsciiDigit])
  exact parse_json_trailing toks (.Number 1) (.Number "2")
    (by rw [h1]) (by rw [h1]; rfl)

theorem pj_obj_obj : parse_json [.LBrace, .RBrace, .LBrace, .RBrace] =
    .error (.UnexpectedToken .LBrace) := by
  set toks : List Token := [.LBrace, .RBrace, .LBrace, .RBrace] with htoks
  have h0 : (0 : ℕ) < toks.length := by decide
  have h1 := parse_object_empty toks 0 h0 rfl
  have h2 := parse_value_lbrace toks 0 h0 rfl
  exact parse_json_trailing toks (.Object []) .LBrace
    (by rw [h2, h1]) (by rw [h2]; dsimp; rw [h1]; rfl)

theorem pj_arr_arr : parse_json
    [.LBracket, .Number "1", .RBracket, .LBracket, .Number "2", .RBracket] =
    .error (.UnexpectedToken .LBracket) := by
  set toks : List Token :=
    [.LBracket, .Number "1", .RBracket, .LBracket, .Number "2", .RBracket] with htoks
  have h0 : (0 : ℕ) < toks.length := by decide
  have h1 := parse_value_number_ok toks 1 "1" 1 rfl
    (by simp [parseFloat?, digitsVal, isAsciiDigit])
  have h1v : (parse_value toks 1).1 = .ok (.Number 1) := by rw [h1]
  have h1p : (parse_value toks 1).2.1 = 2 := by rw [h1]
  have h2 := array_loop_sep_rbracket toks 1 [] (.Number 1) h1v
    (by rw [h1p]; rfl)
  have h2v : (array_loop toks 1 []).1 = .ok (.Array [.Number 1]) := by
    rw [h2]
    rfl
  have h2p : (array_loop toks 1 []).2.1 = 3 := by rw [h2]; dsimp; rw [h1p]
  have h3 := parse_array_nonempty toks 0 h0 (by decide)
  have h4 := parse_value_lbracket toks 0 h0 rfl
  have h4v : (parse_value toks 0).1 = .ok (.Array [.Number 1]) := by
    rw [h4, h3]; exact h2v
  have h4p : (parse_value toks 0).2.1 = 3 := by
    rw [h4]; dsimp; rw [h3]; dsimp; exact h2p
  exact parse_json_trailing toks (.Array [.Number 1]) .LBracket h4v
    (by rw [h4p]; rfl)

theorem pj_badnum : parse_json [.Number "1-2-3"] =
    .error (.InvalidNumber "1-2-3") := by
  set toks : List Token := [.Number "1-2-3"] with htoks
  have h1 := parse_value_number_bad toks 0 "1-2-3" rfl
    (by simp [parseFloat?, digitsVal, isAsciiDigit])
  exact parse_json_err toks _ (by rw [h1])

theorem pj_dup_obj : parse_json [.LBrace, .String "a", .Colon, .Number "1",
    .Comma, .String "a", .Colon, .Number "2", .RBrace] =
    .ok (.Object [("a", .Number 2)]) := by
  set toks : List Token := [.LBrace, .String "a", .Colon, .Number "1",
    .Comma, .String "a", .Colon, .Number "2", .RBrace] with htoks
  have h1 := parse_value_number_ok toks 3 "1" 1 rfl
    (by simp [parseFloat?, digitsVal, isAsciiDigit])
  have h1v : (parse_value toks 3).1 = .ok (.Number 1) := by rw [h1]
  have h1p : (parse_value toks 3).2.1 = 4 := by rw [h1]
  have h2 := parse_value_number_ok toks 7 "2" 2 rfl
    (by simp [parseFloat?, digitsVal, isAsciiDigit])
  have h2v : (parse_value toks 7).1 = .ok (.Number 2) := by rw [h2]
  have h2p : (parse_value toks 7).2.1 = 8 := by rw [h2]
  have h3 := object_loop_sep_rbrace toks 5 [("a", .Number 1)] "a" (.Number 2)
    rfl rfl h2v (by rw [h2p]; rfl)
  have h3v : (object_loop toks 5 [("a", .Number 1)]).1
      = .ok (.Object [("a", .Number 2)]) := by rw [h3]; rfl
  have h3p : (object_loop toks 5 [("a", .Number 1)]).2.1 = 9 := by
    rw [h3]; dsimp; rw [h2p]
  have h4 := object_loop_sep_comma toks 1 [] "a" (.Number 1)
    rfl rfl h1v (by rw [h1p]; rfl)
  have h4v : (object_loop toks 1 []).1 = .ok (.Object [("a", .Number 2)]) := by
    rw [h4]; dsimp; rw [h1p]; exact h3v
  have h4p : (object_loop toks 1 []).2.1 = 9 := by
    rw [h4]; dsimp; rw [h1p]; exact h3p
  have h0 : (0 : ℕ) < toks.length := by decide
  have h5 := parse_object_nonempty toks 0 h0 (by decide)
  have h6 := parse_value_lbrace toks 0 h0 rfl
  have h6v : (parse_value toks 0).1 = .ok (.Object [("a", .Number 2)]) := by
    rw [h6, h5]; exact h4v
  have h6p : (parse_value toks 0).2.1 = 9 := by
    rw [h6]; dsimp; rw [h5]; dsimp; exact h4p
  exact parse_json_done toks _ h6v (by rw [h6p]; decide)

theorem pj_twelve : parse_json [.Number "12"] = .ok (.Number 12) := by
  set toks : List Token := [.Number "12"] with htoks
  have h1 := parse_value_number_ok toks 0 "12" 12 rfl
    (by simp [parseFloat?, digitsVal, isAsciiDigit])
  exact parse_json_done toks _ (by rw [h1]) (by rw [h1]; decide)

theorem pj_one : parse_json [.Number "1"] = .ok (.Number 1) := by
  set toks : List Token := [.Number "1"] with htoks
  have h1 := parse_value_number_ok toks 0 "1" 1 rfl
    (by simp [parseFloat?, digitsVal, isAsciiDigit])
  exact parse_json_done toks _ (by rw [h1]) (by rw [h1]; decide)

theorem pj_arr_trailing : parse_json [.LBracket, .Number "1", .Comma, .RBracket] =
    .error (.UnexpectedToken .RBracket) := by
  set toks : List Token := [.LBracket, .Number "1", .Comma, .RBracket] with htoks
  have h0 : (0 : ℕ) < toks.length := by decide
  have h1 := parse_value_number_ok toks 1 "1" 1 rfl
    (by simp [parseFloat?, digitsVal, isAsciiDigit])
  have h1v : (parse_value toks 1).1 = .ok (.Number 1) := by rw [h1]
  have h1p : (parse_value toks 1).2.1 = 2 := by rw [h1]
  have h2 := parse_value_unexpected toks 3 .RBracket rfl
    (Or.inr (Or.inl rfl))
  have h2v : (parse_value toks 3).1 = .error (.UnexpectedToken .RBracket) := by
    rw [h2]
  have h3 := array_loop_value_err toks 3 ([] ++ [JsonValue.Number 1])
    (.UnexpectedToken .RBracket) h2v
  have h3v : (array_loop toks 3 ([] ++ [JsonValue.Number 1])).1
      = .error (.UnexpectedToken .RBracket) := by rw [h3]
  have h4 := array_loop_sep_comma toks 1 [] (.Number 1) h1v
    (by rw [h1p]; rfl)
  have h4v : (array_loop toks 1 []).1 = .error (.UnexpectedToken .RBracket) := by
    rw [h4]; dsimp; rw [h1p]; exact h3v
  have h5 := parse_array_nonempty toks 0 h0 (by decide)
  have h6 := parse_value_lbracket toks 0 h0 rfl
  exact parse_json_err toks _ (by rw [h6]; dsimp; rw [h5]; dsimp; exact h4v)

theorem pj_obj_trailing : parse_json
    [.LBrace, .String "a", .Colon, .Number "1", .Comma, .RBrace] =
    .error (.UnexpectedToken .RBrace) := by
  set toks : List Token :=
    [.LBrace, .String "a", .Colon, .Number "1", .Comma, .RBrace] with htoks
  have h0 : (0 : ℕ) < toks.length := by decide
  have h1 := parse_value_number_ok toks 3 "1" 1 rfl
    (by simp [parseFloat?, digitsVal, isAsciiDigit])
  have h1v : (parse_value toks 3).1 = .ok (.Number 1) := by rw [h1]
  have h1p : (parse_value toks 3).2.1 = 4 := by rw [h1]
  have h2 := object_loop_badkey toks 5 (mapInsert "a" (.Number 1) []) .RBrace
    rfl (fun s h => Token.noConfusion h)
  have h2v : (object_loop toks 5 (mapInsert "a" (.Number 1) [])).1
      = .error (.UnexpectedToken .RBrace) := by rw [h2]
  have h3 := object_loop_sep_comma toks 1 [] "a" (.Number 1)
    rfl rfl h1v (by rw [h1p]; rfl)
  have h3v : (object_loop toks 1 []).1 = .error (.UnexpectedToken .RBrace) := by
    rw [h3]; dsimp; rw [h1p]; exact h2v
  have h4 := parse_object_nonempty toks 0 h0 (by decide)
  have h5 := parse_value_lbrace toks 0 h0 rfl
  exact parse_json_err toks _ (by rw [h5]; dsimp; rw [h4]; dsimp; exact h3v)

theorem pj_empty_arr : parse_json [.LBracket, .RBracket] = .ok (.Array []) := by
  set toks : List Token := [.LBracket, .RBracket] with htoks
  have h0 : (0 : ℕ) < toks.length := by decide
  have h1 := parse_array_empty toks 0 h0 rfl
  have h2 := parse_value_lbracket toks 0 h0 rfl
  exact parse_json_done toks _ (by rw [h2, h1])
    (by rw [h2]; dsimp; rw [h1]; decide)

theorem pj_empty_obj : parse_json [.LBrace, .RBrace] = .ok (.Object []) := by
  set toks : List Token := [.LBrace, .RBrace] with htoks
  have h0 : (0 : ℕ) < toks.length := by decide
  have h1 := parse_object_empty toks 0 h0 rfl
  have h2 := parse_value_lbrace toks 0 h0 rfl
  exact parse_json_done toks _ (by rw [h2, h1])
    (by rw [h2]; dsimp; rw [h1]; decide)

theorem pj_nil : parse_json ([] : List Token) =
    .error .UnexpectedEndOfTokens := by
  have h1 := parse_value_endOfTokens ([] : List Token) 0 (le_refl 0)
  exact parse_json_err [] _ (by rw [h1])

theorem pj_escstr : parse_json [.String "a\nb"] = .ok (.String "a\nb") := by
  set toks : List Token := [.String "a\nb"] with htoks
  have h1 := parse_value_string toks 0 "a\nb" rfl
  exact parse_json_done toks _ (by rw [h1]) (by rw [h1]; decide)

theorem pjs_one_two : parse_json_str "1 2" =
    .error (.parseErr (.UnexpectedToken (.Number "2"))) :=
  parse_json_str_parseErr _ _ _ tok_one_two pj_num_pair

theorem pjs_obj_obj : parse_json_str "{} {}" =
    .error (.parseErr (.UnexpectedToken .LBrace)) :=
  parse_json_str_parseErr _ _ _ tok_obj_obj pj_obj_obj

theorem pjs_arr_arr : parse_json_str "[1][2]" =
    .error (.parseErr (.UnexpectedToken .LBracket)) :=
  parse_json_str_parseErr _ _ _ tok_arr_arr pj_arr_arr

theorem pjs_badnum : parse_json_str "1-2-3" =
    .error (.parseErr (.InvalidNumber "1-2-3")) :=
  parse_json_str_parseErr _ _ _ tok_badnum pj_badnum

theorem pjs_unterminated : parse_json_str "\"abc" =
    .error (.lexErr (.UnterminatedString 0)) :=
  parse_json_str_lexErr _ _ tok_unterminated

theorem pjs_dup_obj : parse_json_str "\x7b\"a\":1,\"a\":2\x7d" =
    .ok (.Object [("a", .Number 2)]) :=
  parse_json_str_ok _ _ _ tok_dup_obj pj_dup_obj

theorem pjs_twelve : parse_json_str "12" = .ok (.Number 12) :=
  parse_json_str_ok _ _ _ tok_twelve pj_twelve

theorem pjs_one : parse_json_str "1" = .ok (.Number 1) :=
  parse_json_str_ok _ _ _ tok_one pj_one

theorem pjs_escstr : parse_json_str "\"a\\nb\"" = .ok (.String "a\nb") :=
  parse_json_str_ok _ _ _ tok_escstr pj_escstr

theorem pjs_truee : parse_json_str "truee" =
    .error (.lexErr (.InvalidToken 't' 0)) :=
  parse_json_str_lexErr _ _ tok_truee

theorem pjs_arr_trailing : parse_json_str "[1,]" =
    .error (.parseErr (.UnexpectedToken .RBracket)) :=
  parse_json_str_parseErr _ _ _ tok_arr_trailing pj_arr_trailing

theorem pjs_obj_trailing : parse_json_str "\x7b\"a\":1,\x7d" =
    .error (.parseErr (.UnexpectedToken .RBrace)) :=
  parse_json_str_parseErr _ _ _ tok_obj_trailing pj_obj_trailing

theorem pjs_empty_arr : parse_json_str "[]" = .ok (.Array []) :=
  parse_json_str_ok _ _ _ tok_empty_arr pj_empty_arr

theorem pjs_empty_obj : parse_json_str "{}" = .ok (.Object []) :=
  parse_json_str_ok _ _ _ tok_empty_obj pj_empty_obj

theorem pjs_empty : parse_json_str "" =
    .error (.parseErr .UnexpectedEndOfTokens) :=
  parse_json_str_parseErr _ _ _ tok_empty pj_nil

/-- Last write wins on the association-list model of `HashMap::insert`:
after inserting `v` at key `k`, looking `k` up yields `v`, whatever was
bound before. -/
theorem lookup_mapInsert (k : String) (v : JsonValue) :
    ∀ m : List (String × JsonValue), List.lookup k (mapInsert k v m) = some v := by
  intro m
  induction m with
  | nil => simp [mapInsert, List.lookup]
  | cons p rest ih =>
    obtain ⟨k', v'⟩ := p
    by_cases h : k' = k
    · subst h
      simp [mapInsert, List.lookup]
    · simp only [mapInsert, if_neg h, List.lookup]
      rw [show (k == k') = false by simp [Ne.symm h]]
      exact ih

/-- An all-whitespace character sequence produces no tokens. -/
theorem tokenizeAux_all_ws :
    ∀ (cs : List Char) (i : ℕ), (∀ c ∈ cs, isWsChar c = true) →
      tokenizeAux i cs = .ok []
  | [], i, _ => tokenizeAux_nil i
  | c :: cs, i, h => by
    rw [tokenizeAux_ws i c cs (h c (by simp))]
    exact tokenizeAux_all_ws cs (i + 1) (fun x hx => h x (by simp [hx]))

/-!  The claims. -/

/-- C1: after one complete top-level value, any leftover token makes
`parse_json` fail with `UnexpectedToken` on that first leftover token,
and parsing succeeds only when the one value consumed the whole token
sequence; in particular `parse("1 2")`, `parse("{} {}")` and
`parse("[1][2]")` fail with an unexpected-token error referencing the
second value's first token. -/
theorem C1_exactly_one_top_level_value :
    (∀ (tokens : List Token) (v : JsonValue) (t : Token),
      (parse_value tokens 0).1 = .ok v →
      tokens[(parse_value tokens 0).2.1]? = some t →
      parse_json tokens = .error (.UnexpectedToken t)) ∧
    (∀ (tokens : List Token) (v : JsonValue),
      (parse_value tokens 0).1 = .ok v →
      tokens.length ≤ (parse_value tokens 0).2.1 →
      parse_json tokens = .ok v) ∧
    parse_json_str "1 2" = .error (.parseErr (.UnexpectedToken (.Number "2"))) ∧
    parse_json_str "{} {}" = .error (.parseErr (.UnexpectedToken .LBrace)) ∧
    parse_json_str "[1][2]" = .error (.parseErr (.UnexpectedToken .LBracket)) :=
  ⟨fun tokens v t hv ht => parse_json_trailing tokens v t hv ht,
   fun tokens v hv hp => parse_json_done tokens v hv hp,
   pjs_one_two, pjs_obj_obj, pjs_arr_arr⟩

/-- C1 witness: the top-level check applied to the token sequence of
`"1 2"`. -/
theorem C1_witness :
    parse_json [Token.Number "1", Token.Number "2"] =
      .error (.UnexpectedToken (.Number "2")) :=
  C1_exactly_one_top_level_value.1 [Token.Number "1", Token.Number "2"]
    (.Number 1) (.Number "2")
    (by rw [parse_value_number_ok [Token.Number "1", Token.Number "2"] 0 "1" 1
      rfl (by simp [parseFloat?, digitsVal, isAsciiDigit])])
    (by rw [parse_value_number_ok [Token.Number "1", Token.Number "2"] 0 "1" 1
      rfl (by simp [parseFloat?, digitsVal, isAsciiDigit])]
        rfl)

/-- C2: a run starting with a digit or `-` is scanned greedily over
`{digit, '.', 'e', 'E', '+', '-'}` into one Number token holding the raw
text, with no validation at scan time; `tokenize("1-2-3")` yields the
single Number token `"1-2-3"`, and `parse("1-2-3")` fails with
`InvalidNumber` carrying that same raw text. -/
theorem C2_greedy_number_scan_deferred_validation :
    (∀ (i : ℕ) (c : Char) (cs : List Char), isDigitOrMinus c = true →
      tokenizeAux i (c :: cs) =
        (tokenizeAux (i + 1 + (cs.takeWhile isNumChar).length)
            (cs.drop (cs.takeWhile isNumChar).length)).map
          (fun ts => Token.Number (String.mk (c :: cs.takeWhile isNumChar)) :: ts)) ∧
    tokenize "1-2-3" = .ok [.Number "1-2-3"] ∧
    parseFloat? "1-2-3" = none ∧
    parse_json_str "1-2-3" = .error (.parseErr (.InvalidNumber "1-2-3")) :=
  ⟨fun i c cs h => tokenizeAux_num i c cs h, tok_badnum,
   by simp [parseFloat?, digitsVal, isAsciiDigit], pjs_badnum⟩

/-- C2 witness: the greedy number-run equation applied to the scan of
`"1-2-3"` from index 0. -/
theorem C2_witness :
    tokenizeAux 0 ('1' :: ['-', '2', '-', '3']) =
      (tokenizeAux (0 + 1 + (['-', '2', '-', '3'].takeWhile isNumChar).length)
          (['-', '2', '-', '3'].drop (['-', '2', '-', '3'].takeWhile isNumChar).length)).map
        (fun ts =>
          Token.Number (String.mk ('1' :: ['-', '2', '-', '3'].takeWhile isNumChar)) :: ts) :=
  C2_greedy_number_scan_deferred_validation.1 0 '1' ['-', '2', '-', '3'] (by decide)

/-- C3: a string opened by `"` whose body never reaches an unescaped
closing quote (including a trailing backslash at end of input) makes the
scan fail with `UnterminatedString` carrying the opening quote's index —
indeed `UnterminatedString` with the opening index is the only error the
string scanner can produce; `tokenize`/`parse` of `"abc` (no closing
quote) fail with that error at index 0. -/
theorem C3_unterminated_string :
    (∀ (i : ℕ) (cs : List Char), hasUnescapedClose cs = false →
      tokenizeAux i ('"' :: cs) = .error (.UnterminatedString i)) ∧
    (∀ (i : ℕ) (cs : List Char) (e : LexError),
      scanString i cs = .error e → e = .UnterminatedString i) ∧
    tokenize "\"abc" = .error (.UnterminatedString 0) ∧
    parse_json_str "\"abc" = .error (.lexErr (.UnterminatedString 0)) :=
  ⟨fun i cs h => tokenizeAux_quote_err i cs _ (scanString_noClose cs i h),
   fun i cs e h => scanString_error_eq i cs e h,
   tok_unterminated, pjs_unterminated⟩

/-- C3 witness: the unterminated-string rule applied to the scan of
`"abc` (opening quote at index 0, body `abc`, no closing quote), and to a
body ending in a trailing backslash. -/
theorem C3_witness :
    tokenizeAux 0 ('"' :: ['a', 'b', 'c']) = .error (.UnterminatedString 0) ∧
    tokenizeAux 0 ('"' :: ['a', '\\']) = .error (.UnterminatedString 0) :=
  ⟨C3_unterminated_string.1 0 ['a', 'b', 'c'] (by decide),
   C3_unterminated_string.1 0 ['a', '\\'] (by decide)⟩

/-- C4: a repeated object key silently overwrites the earlier binding
(last write wins) — inserting at an existing key replaces its value for
lookup — and `parse({"a":1,"a":2})` succeeds with an Object in which
`"a"` maps to `2`. -/
theorem C4_duplicate_keys_last_write_wins :
    (∀ (k : String) (v : JsonValue) (m : List (String × JsonValue)),
      List.lookup k (mapInsert k v m) = some v) ∧
    parse_json_str "\x7b\"a\":1,\"a\":2\x7d" = .ok (.Object [("a", .Number 2)]) ∧
    List.lookup "a" [("a", JsonValue.Number 2)] = some (JsonValue.Number 2) :=
  ⟨lookup_mapInsert, pjs_dup_obj, rfl⟩

/-- C4 witness: overwriting the existing binding of `"a"`. -/
theorem C4_witness :
    List.lookup "a" (mapInsert "a" (JsonValue.Number 2)
      [("a", JsonValue.Number 1)]) = some (JsonValue.Number 2) :=
  C4_duplicate_keys_last_write_wins.1 "a" (JsonValue.Number 2)
    [("a", JsonValue.Number 1)]

/-- C5 (amended): whitespace edits at token boundaries that preserve
every token lexeme (the `WsIns` relation: same lexemes, arbitrary
whitespace inserted or removed between them, no two greedy tokens
merging) leave the result of `parse` unchanged.  The claim's unrestricted
"removing" direction is false: see `C5_counterexample`. -/
theorem C5_whitespace_between_tokens :
    ∀ (s s' : String), WsIns s.toList s'.toList →
      parse_json_str s = parse_json_str s' := by
  intro s s' h
  obtain ⟨ts, h1, h2⟩ := wsIns_tokenize _ _ h
  have e1 : tokenize s = .ok ts := h1 0
  have e2 : tokenize s' = .ok ts := h2 0
  simp [parse_json_str, e1, e2]

/-- C5 counterexample: removing the whitespace between the two tokens of
`"1 2"` changes the result of parse — `parse("1 2")` fails with an
unexpected-token error while `parse("12")` succeeds with the number 12,
so the claim as stated (inserting **or removing** any amount of
whitespace between tokens never changes the parsed result) is false. -/
theorem C5_counterexample :
    parse_json_str "1 2" ≠ parse_json_str "12" ∧
    parse_json_str "1 2" = .error (.parseErr (.UnexpectedToken (.Number "2"))) ∧
    parse_json_str "12" = .ok (.Number 12) :=
  ⟨by rw [pjs_one_two, pjs_twelve]; simp, pjs_one_two, pjs_twelve⟩

/-- C5 witness: inserting one space before the single token of `"1"`
leaves the parse result unchanged. -/
theorem C5_witness : parse_json_str "1" = parse_json_str " 1" :=
  C5_whitespace_between_tokens "1" " 1"
    (WsIns.wsR ' ' ['1'] ['1'] (by decide)
      (WsIns.tok ['1'] (.Number (String.mk ['1'])) [] []
        (ScanTok.num '1' [] (by decide) (by simp))
        trivial trivial WsIns.nil))

/-- C6: the scanner decodes exactly the escapes `\"`, `\\`, `\n`, `\t`,
`\r`, and any other escaped character is emitted literally; inside a
string a backslash-`e` pair contributes exactly `decodeEscape e`; and
`parse("\"a\\nb\"")` yields a String with a literal newline between `a`
and `b`. -/
theorem C6_escape_decoding :
    decodeEscape '"' = '"' ∧ decodeEscape '\\' = '\\' ∧
    decodeEscape 'n' = '\n' ∧ decodeEscape 't' = '\t' ∧
    decodeEscape 'r' = '\r' ∧
    (∀ e : Char, ¬e = '"' → ¬e = '\\' → ¬e = 'n' → ¬e = 't' → ¬e = 'r' →
      decodeEscape e = e) ∧
    (∀ (i : ℕ) (e : Char) (cs content : List Char) (n : ℕ),
      scanString i cs = .ok (content, n) →
      scanString i ('\\' :: e :: cs) = .ok (decodeEscape e :: content, n + 2)) ∧
    parse_json_str "\"a\\nb\"" = .ok (.String "a\nb") :=
  ⟨rfl, rfl, rfl, rfl, rfl,
   fun e h1 h2 h3 h4 h5 => by simp [decodeEscape, h1, h2, h3, h4, h5],
   fun i e cs content n h => scanString_escape i e cs content n h,
   pjs_escstr⟩

/-- C6 witness: the escape step applied concretely: scanning `\nb"`
after the opening quote decodes to a literal newline followed by `b`. -/
theorem C6_witness :
    scanString 0 ('\\' :: 'n' :: ['b', '"']) =
      .ok (decodeEscape 'n' :: ['b'], 2 + 2) :=
  C6_escape_decoding.2.2.2.2.2.2.1 0 'n' ['b', '"'] ['b'] 2 rfl

/-- C7: a maximal alphabetic run is accepted only if it is exactly
`true`, `false` or `null` (case-sensitive), producing the corresponding
keyword token; any other run fails with `InvalidToken` carrying the first
character of the run and its index; `parse("truee")` fails with an
invalid-token error (run `truee`, first char `t`, index 0). -/
theorem C7_keyword_identifiers_only :
    (∀ (i : ℕ) (c : Char) (cs : List Char), isAlphaChar c = true →
      ¬String.mk (c :: cs.takeWhile isAlphaChar) = "true" →
      ¬String.mk (c :: cs.takeWhile isAlphaChar) = "false" →
      ¬String.mk (c :: cs.takeWhile isAlphaChar) = "null" →
      tokenizeAux i (c :: cs) = .error (.InvalidToken c i)) ∧
    (∀ (i : ℕ) (c : Char) (cs : List Char), isAlphaChar c = true →
      String.mk (c :: cs.takeWhile isAlphaChar) = "true" →
      tokenizeAux i (c :: cs) =
        (tokenizeAux (i + 1 + (cs.takeWhile isAlphaChar).length)
            (cs.drop (cs.takeWhile isAlphaChar).length)).map
          (fun ts => Token.True :: ts)) ∧
    (∀ (i : ℕ) (c : Char) (cs : List Char), isAlphaChar c = true →
      String.mk (c :: cs.takeWhile isAlphaChar) = "false" →
      tokenizeAux i (c :: cs) =
        (tokenizeAux (i + 1 + (cs.takeWhile isAlphaChar).length)
            (cs.drop (cs.takeWhile isAlphaChar).length)).map
          (fun ts => Token.False :: ts)) ∧
    (∀ (i : ℕ) (c : Char) (cs : List Char), isAlphaChar c = true →
      String.mk (c :: cs.takeWhile isAlphaChar) = "null" →
      tokenizeAux i (c :: cs) =
        (tokenizeAux (i + 1 + (cs.takeWhile isAlphaChar).length)
            (cs.drop (cs.takeWhile isAlphaChar).length)).map
          (fun ts => Token.Null :: ts)) ∧
    tokenize "truee" = .error (.InvalidToken 't' 0) ∧
    parse_json_str "truee" = .error (.lexErr (.InvalidToken 't' 0)) :=
  ⟨fun i c cs h h1 h2 h3 => tokenizeAux_alpha_invalid i c cs h h1 h2 h3,
   fun i c cs h hid => tokenizeAux_alpha_true i c cs h hid,
   fun i c cs h hid => tokenizeAux_alpha_false i c cs h hid,
   fun i c cs h hid => tokenizeAux_alpha_null i c cs h hid,
   tok_truee, pjs_truee⟩

/-- C7 witness: the invalid-identifier rule applied to the scan of
`truee` from index 0. -/
theorem C7_witness :
    tokenizeAux 0 ('t' :: ['r', 'u', 'e', 'e']) = .error (.InvalidToken 't' 0) :=
  C7_keyword_identifiers_only.1 0 't' ['r', 'u', 'e', 'e'] (by decide)
    (by decide) (by decide) (by decide)

/-- C8: where a value is expected, any structural closer or separator
(`}`, `]`, `:`, `,`) is an `UnexpectedToken` error — which is exactly
what a trailing comma runs into — while the empty forms `[]` and `{}`
are accepted as a zero-element special case: `parse("[1,]")` and
`parse("\x7b\"a\":1,\x7d")` fail with `UnexpectedToken` on the closer, while
`parse("[]")` and `parse("{}")` succeed with the empty containers. -/
theorem C8_trailing_comma_rejected_empty_allowed :
    (∀ (tokens : List Token) (pos : ℕ) (t : Token), tokens[pos]? = some t →
      (t = .RBrace ∨ t = .RBracket ∨ t = .Colon ∨ t = .Comma) →
      (parse_value tokens pos).1 = .error (.UnexpectedToken t)) ∧
    parse_json_str "[1,]" = .error (.parseErr (.UnexpectedToken .RBracket)) ∧
    parse_json_str "\x7b\"a\":1,\x7d" = .error (.parseErr (.UnexpectedToken .RBrace)) ∧
    parse_json_str "[]" = .ok (.Array []) ∧
    parse_json_str "{}" = .ok (.Object []) :=
  ⟨fun tokens pos t h ht => by rw [parse_value_unexpected tokens pos t h ht],
   pjs_arr_trailing, pjs_obj_trailing, pjs_empty_arr, pjs_empty_obj⟩

/-- C8 witness: a value parse landing on the `]` of `[1,]`. -/
theorem C8_witness :
    (parse_value [Token.LBracket, Token.Number "1", Token.Comma,
      Token.RBracket] 3).1 = .error (.UnexpectedToken .RBracket) :=
  C8_trailing_comma_rejected_empty_allowed.1
    [Token.LBracket, Token.Number "1", Token.Comma, Token.RBracket] 3
    .RBracket rfl (Or.inr (Or.inl rfl))

/-- C9: the cursor returned by every parsing call moves only forward
(`pos ≤ final`) and never exceeds the token-sequence length (for
`parse_value` whenever it started in range, and unconditionally for
`parse_object`/`parse_array`, whose contract has the opening token in
range); `parse_json` is `parse_value` at position 0 plus a pure read. -/
theorem C9_cursor_forward_and_bounded :
    (∀ (tokens : List Token) (pos : ℕ),
      pos ≤ (parse_value tokens pos).2.1 ∧
      (pos ≤ tokens.length → (parse_value tokens pos).2.1 ≤ tokens.length)) ∧
    (∀ (tokens : List Token) (pos : ℕ) (h : pos < tokens.length),
      pos ≤ (parse_object tokens pos h).2.1 ∧
      (parse_object tokens pos h).2.1 ≤ tokens.length) ∧
    (∀ (tokens : List Token) (pos : ℕ) (h : pos < tokens.length),
      pos ≤ (parse_array tokens pos h).2.1 ∧
      (parse_array tokens pos h).2.1 ≤ tokens.length) :=
  ⟨fun tokens pos => (parse_value tokens pos).2.2,
   fun tokens pos h => (parse_object tokens pos h).2.2,
   fun tokens pos h => (parse_array tokens pos h).2.2⟩

/-- C9 witness: cursor bounds at a concrete call. -/
theorem C9_witness :
    (0 ≤ (parse_value [Token.Null] 0).2.1 ∧
      (0 ≤ ([Token.Null] : List Token).length →
        (parse_value [Token.Null] 0).2.1 ≤ ([Token.Null] : List Token).length)) ∧
    (0 ≤ (parse_object [Token.LBrace, Token.RBrace] 0 (by decide)).2.1 ∧
      (parse_object [Token.LBrace, Token.RBrace] 0 (by decide)).2.1 ≤
        ([Token.LBrace, Token.RBrace] : List Token).length) :=
  ⟨C9_cursor_forward_and_bounded.1 [Token.Null] 0,
   C9_cursor_forward_and_bounded.2.1 [Token.LBrace, Token.RBrace] 0 (by decide)⟩

/-- C10: an empty or all-whitespace input tokenizes successfully to the
empty token sequence, and parsing then fails with
`UnexpectedEndOfTokens` (a parse-stage error, not a lex error, and no
value). -/
theorem C10_empty_and_whitespace_only_input :
    (∀ s : String, (∀ c ∈ s.toList, isWsChar c = true) →
      tokenize s = .ok [] ∧
      parse_json_str s = .error (.parseErr .UnexpectedEndOfTokens)) ∧
    parse_json ([] : List Token) = .error .UnexpectedEndOfTokens :=
  ⟨fun s h =>
    have ht : tokenize s = .ok [] := tokenizeAux_all_ws s.toList 0 h
    ⟨ht, parse_json_str_parseErr s [] _ ht pj_nil⟩,
   pj_nil⟩

/-- C10 witness: the empty input and an all-whitespace input. -/
theorem C10_witness :
    (tokenize "" = .ok [] ∧
      parse_json_str "" = .error (.parseErr .UnexpectedEndOfTokens)) ∧
    (tokenize " \n\t\r" = .ok [] ∧
      parse_json_str " \n\t\r" = .error (.parseErr .UnexpectedEndOfTokens)) :=
  ⟨C10_empty_and_whitespace_only_input.1 "" (by simp),
   C10_empty_and_whitespace_only_input.1 " \n\t\r" (by decide)⟩

end JsonRs
